import Mathlib

/-!
# Twindicator: the triage model of `mainwindow.cpp`

A shallow embedding of the parts of `src/mainwindow.cpp` that decide which post is
shown, how fetched posts are merged, how `mostRecentId` is computed and how pointer
input on the card turns into a classification.

Conventions of the embedding

* A `QJsonValue` is `Null`, `Undefined` or an object that carries an `id` and a body.
  The expression `v.toVariant().toMap()["id"].toLongLong()` of the source is `tweetId v`;
  it is `0` for every value that is not an object.
* A `QJsonArray` is a `List QJsonValue`.
* The velocity, a `qreal`, is an exact rational.  The opacity is not evaluated: the
  state records the call of `setOpacity` that came last.
* The widgets are represented by the few quantities the code reads from them:
  row and column count of the table, position, width and height of the card.
* Deferred work (`QTimer::singleShot`, `startTimer`, animations, network requests) is
  recorded in the state; it runs as a later, separate call.
-/

namespace Twindicator

/-! ## Data model -/

/-- JSON value held in the post arrays and in `currentTweet`. -/
inductive QJsonValue where
  | Null : QJsonValue
  | Undefined : QJsonValue
  | Object (id : Int) (text : String) : QJsonValue
deriving DecidableEq, Repr

/-- Value of `v.toVariant().toMap()["id"].toLongLong()`. -/
def tweetId : QJsonValue → Int
  | QJsonValue.Object id _ => id
  | _ => 0

/-- Value of `QJsonValue::isNull()`: true for `Null` only. -/
def QJsonValue.isNull : QJsonValue → Bool
  | QJsonValue.Null => true
  | _ => false

/-- What a `QJsonArray` stores for a value: `Undefined` is stored as `Null`. -/
def QJsonValue.stored : QJsonValue → QJsonValue
  | QJsonValue.Undefined => QJsonValue.Null
  | v => v

/-- Value of `QJsonArray::first()`: `Undefined` on an empty array. -/
def first : List QJsonValue → QJsonValue
  | [] => QJsonValue.Undefined
  | v :: _ => v

/-- Effect of `QJsonArray::pop_front()`: nothing on an empty array. -/
def pop_front : List QJsonValue → List QJsonValue
  | [] => []
  | _ :: vs => vs

/-- Effect of `QJsonArray::push_front(v)`. -/
def push_front (v : QJsonValue) (a : List QJsonValue) : List QJsonValue :=
  v.stored :: a

/-- The identities of an array, in order. -/
def ids (a : List QJsonValue) : List Int := a.map tweetId

/-- The comparator `idComparator` (line 79): larger identity first. -/
def idComparator (a b : QJsonValue) : Bool := decide (tweetId a > tweetId b)

/-! ## The two Qt algorithms used by `mergeTweets`

`qBinaryFind` and `qSort` follow `qalgorithms.h` of Qt 5. -/

/-- The loop of `qLowerBound(begin, end, value, lessThan)`: `start` is the index of
`begin`, `n` the length of the range still searched.  The loop halves `n`, so `fuel`
equal to the length of the array is never exhausted. -/
def qLowerBoundLoop {α : Type} (lessThan : α → α → Bool) (xs : List α) (value : α) :
    Nat → Nat → Nat → Nat
  | 0, start, _ => start
  | fuel + 1, start, n =>
    if 0 < n then
      let half := n / 2
      let middle := start + half
      match xs[middle]? with
      | some m =>
        if lessThan m value then
          qLowerBoundLoop lessThan xs value fuel (middle + 1) (n - (half + 1))
        else
          qLowerBoundLoop lessThan xs value fuel start half
      | none => start
    else start

/-- Index returned by `qLowerBound` over the whole array. -/
def qLowerBound {α : Type} (lessThan : α → α → Bool) (xs : List α) (value : α) : Nat :=
  qLowerBoundLoop lessThan xs value xs.length 0 xs.length

/-- Result of `qBinaryFind(begin, end, value, lessThan)`: the index found, or `none`
for the end iterator. -/
def qBinaryFind {α : Type} (lessThan : α → α → Bool) (xs : List α) (value : α) :
    Option Nat :=
  let it := qLowerBound lessThan xs value
  match xs[it]? with
  | none => none
  | some x => if lessThan value x then none else some it

/-- Effect of `qSwap(*i, *j)` on the array. -/
def qSwap {α : Type} (a : List α) (i j : Nat) : List α :=
  match a[i]?, a[j]? with
  | some x, some y => (a.set i y).set j x
  | _, _ => a

/-- Value of `lessThan(*i, *j)`. -/
def lessAt {α : Type} (lessThan : α → α → Bool) (a : List α) (i j : Nat) : Bool :=
  match a[i]?, a[j]? with
  | some x, some y => lessThan x y
  | _, _ => false

/-- The loop `while (low < high && lessThan(*low, *end)) ++low;`, where `last` is the
index of `*end`.  `fuel` equal to `high - low` is never exhausted. -/
def scanLow {α : Type} (lessThan : α → α → Bool) (a : List α) (last high : Nat) :
    Nat → Nat → Nat
  | 0, low => low
  | fuel + 1, low =>
    if low < high && lessAt lessThan a low last then scanLow lessThan a last high fuel (low + 1)
    else low

/-- The loop `while (high > low && lessThan(*end, *high)) --high;`. -/
def scanHigh {α : Type} (lessThan : α → α → Bool) (a : List α) (last low : Nat) :
    Nat → Nat → Nat
  | 0, high => high
  | fuel + 1, high =>
    if high > low && lessAt lessThan a last high then
      scanHigh lessThan a last low fuel (high - 1)
    else high

/-- The loop `while (low < high) { ... }` of `qSortHelper`: both scans, then a swap and
a step of both indices, or the `break`.  The result is the array and `low`. -/
def partitionLoop {α : Type} (lessThan : α → α → Bool) (last : Nat) :
    Nat → List α → Nat → Nat → List α × Nat
  | 0, a, low, _ => (a, low)
  | fuel + 1, a, low, high =>
    if low < high then
      let low1 := scanLow lessThan a last high (high - low) low
      let high1 := scanHigh lessThan a last low1 (high - low1) high
      if low1 < high1 then
        partitionLoop lessThan last fuel (qSwap a low1 high1) (low1 + 1) (high1 - 1)
      else (a, low1)
    else (a, low)

/-- The statement `if (lessThan(*i, *j)) qSwap(*i, *j);`. -/
def swapIfLess {α : Type} (lessThan : α → α → Bool) (a : List α) (i j : Nat) : List α :=
  if lessAt lessThan a i j then qSwap a i j else a

/-- The partition of `qSortHelper` for a span of four or more: the pivot is moved to
the last position, the loop runs, and the pivot is put at `low`.  The result is the
array and `low`. -/
def partitionRange {α : Type} (lessThan : α → α → Bool) (a : List α)
    (start pivot last : Nat) : List α × Nat :=
  let a4 := qSwap a pivot last
  let p := partitionLoop lessThan last (last + 1 - start) a4 start (last - 1)
  let low := if lessAt lessThan p.1 p.2 last then p.2 + 1 else p.2
  (qSwap p.1 last low, low)

/-- The function `qSortHelper(start, end, t, lessThan)` of Qt 5 on the range from index
`start` up to but excluding `stop`.  The jump back to `top` with `start = low + 1` is
the second call.  Each call works on a shorter range, so `fuel` equal to the length of
the range is never exhausted. -/
def qSortHelper {α : Type} (lessThan : α → α → Bool) :
    Nat → List α → Nat → Nat → List α
  | 0, a, _, _ => a
  | fuel + 1, a, start, stop =>
    let span := stop - start
    if span < 2 then a
    else
      let last := stop - 1
      let pivot := start + span / 2
      let a1 := swapIfLess lessThan a last start
      if span = 2 then a1
      else
        let a2 := swapIfLess lessThan a1 pivot start
        let a3 := swapIfLess lessThan a2 last pivot
        if span = 3 then a3
        else
          let q := partitionRange lessThan a3 start pivot last
          qSortHelper lessThan fuel (qSortHelper lessThan fuel q.1 start q.2) (q.2 + 1) stop

/-- The function `qSort(begin, end, lessThan)` of Qt 5: `qSortHelper` over the whole
array.  It is not stable: items that compare equal can change their order. -/
def qSort {α : Type} (lessThan : α → α → Bool) (xs : List α) : List α :=
  qSortHelper lessThan xs.length xs 0 xs.length

/-- Every item of `a` at an index from `lo` up to but excluding `hi` satisfies `P`. -/
def AllIn {α : Type} (a : List α) (lo hi : Nat) (P : α → Prop) : Prop :=
  ∀ i x, lo ≤ i → i < hi → a[i]? = some x → P x

/-- The array `b` comes from `a` by moving items within the range from `s` up to but
excluding `e`. -/
def Within {α : Type} (a b : List α) (s e : Nat) : Prop :=
  b.length = a.length ∧ b.Perm a ∧ (∀ i, (i < s ∨ e ≤ i) → b[i]? = a[i]?) ∧
    ∀ Q : α → Prop, AllIn a s e Q → AllIn b s e Q

/-- The items of `b` from index `s` up to but excluding `e` are in ascending order of
their keys. -/
def SortedIn {α κ : Type} [LinearOrder κ] (key : α → κ) (b : List α) (s e : Nat) : Prop :=
  ∀ i j x y, s ≤ i → i < j → j < e → b[i]? = some x → b[j]? = some y → key x ≤ key y

/-- The loop of `mergeTweets` (lines 506-512): every post of the batch that the
binary search does not find in `storedList` is appended to `result`. -/
def mergeLoop (storedList : List QJsonValue) :
    List QJsonValue → List QJsonValue → List QJsonValue
  | [], result => result
  | post :: rest, result =>
    match qBinaryFind idComparator storedList post with
    | none => mergeLoop storedList rest (result ++ [post])
    | some _ => mergeLoop storedList rest result

/-- The function `MainWindow::mergeTweets` (lines 501-515). -/
def mergeTweets (storedJson currentJson : List QJsonValue) : List QJsonValue :=
  qSort idComparator (mergeLoop storedJson currentJson storedJson)

/-! ## Geometry, kinetic samples and deferred work -/

/-- Integer point (`QPoint`). -/
structure QPoint where
  x : Int
  y : Int
deriving DecidableEq, Repr

/-- Point with `qreal` coordinates (`QPointF`), taken as exact rationals. -/
structure QPointF where
  x : ℚ
  y : ℚ
deriving DecidableEq, Repr

/-- The struct `KineticData` (lines 58-63): pointer position and elapsed milliseconds. -/
structure KineticData where
  p : QPoint
  t : Int
deriving DecidableEq, Repr

/-- What the model keeps of a `QPropertyAnimation` on `pos`: its two end points and
how often `start()` was called. -/
structure QPropertyAnimation where
  startValue : QPoint
  endValue : QPoint
  starts : Nat
deriving DecidableEq, Repr

/-- What the model keeps of the opacity of the card: which call of `setOpacity` came
last.  The argument is a `qreal` computed in floating point; it is recorded by the
integers it is computed from and not evaluated. -/
inductive Opacity where
  /-- The call `setOpacity(1.0)`. -/
  | full : Opacity
  /-- The call `setOpacity(opacity - 0.25)` of `scrollBy`, with `opacity` computed by
  lines 377-379 from `width() = width` and `pos().x() = x`. -/
  | scrolled (width x : Int) : Opacity
deriving DecidableEq, Repr

/-- The one parameter of a timeline request (lines 723-725). -/
inductive O1RequestParameter where
  | since_id (id : Int) : O1RequestParameter
  | count200 : O1RequestParameter
deriving DecidableEq, Repr

/-- What `gotUserTimeline` reads from a reply: an error, or the array of the body. -/
inductive QNetworkReply where
  | Error : QNetworkReply
  | NoError (body : List QJsonValue) : QNetworkReply
deriving DecidableEq, Repr

/-- Pointer events seen by `eventFilter`, with the readings of
`mouseMoveTimer.elapsed()` that the handler takes (two on a release). -/
inductive QEvent where
  | MouseButtonPress (onTweetFrame leftButton : Bool) (globalPos : QPoint) : QEvent
  | MouseMove (onTweetFrame : Bool) (globalPos : QPoint) (elapsed : Int) : QEvent
  | MouseButtonRelease (onTweetFrame leftButton : Bool) (globalPos : QPoint)
      (elapsed elapsed2 : Int) : QEvent
  | Other : QEvent
deriving DecidableEq, Repr

def MaxKineticDataSamples : Nat := 5

def Friction : ℚ := 95 / 100

def TimeInterval : Int := 25

def AnimationDuration : Int := 200

/-- The fields of `MainWindowPrivate` the modelled slots use, followed by the widget
quantities read through `ui` and the record of deferred work. -/
structure MainWindow where
  kineticData : List KineticData
  tableBuildCalled : Bool
  storedTweets : List QJsonValue
  badTweets : List QJsonValue
  goodTweets : List QJsonValue
  mostRecentId : Int
  originalTweetFramePos : QPoint
  lastTweetFramePos : QPoint
  lastMousePos : QPoint
  mouseDown : Bool
  /-- Opacity held by `tweetFrameOpacityEffect`. -/
  opacity : Opacity
  mouseMoveTimerId : Nat
  velocity : QPointF
  currentTweet : QJsonValue
  unfloatAnimation : QPropertyAnimation
  floatInAnimation : QPropertyAnimation
  floatOutAnimation : QPropertyAnimation
  relevantWords : List String
  /-- Id column of `ui->tableWidget`, one entry per row. -/
  tableRows : List Int
  /-- Column count of `ui->tableWidget`, fixed by the form. -/
  columnCount : Nat
  /-- Position of `ui->tweetFrame`. -/
  tweetFramePos : QPoint
  tweetFrameWidth : Int
  tweetFrameHeight : Int
  /-- Number of `QTimer::singleShot(AnimationDuration, pickNextTweet)` calls issued. -/
  singleShots : Nat
  /-- Timeline requests issued by `getUserTimeline`, oldest first. -/
  requests : List O1RequestParameter
deriving DecidableEq, Repr

/-- Value of `ui->tableWidget->rowCount()`. -/
def rowCount (s : MainWindow) : Nat := s.tableRows.length

/-- The state the constructor leaves when no file is present: empty arrays, no current
post, an empty table with the four columns of `ColumnIndexes`.  The geometry is that of
scenario S2: a card of width 300 that rests at x = 0. -/
def startup : MainWindow where
  kineticData := []
  tableBuildCalled := false
  storedTweets := []
  badTweets := []
  goodTweets := []
  mostRecentId := 0
  originalTweetFramePos := ⟨0, 0⟩
  lastTweetFramePos := ⟨0, 0⟩
  lastMousePos := ⟨0, 0⟩
  mouseDown := false
  opacity := Opacity.full
  mouseMoveTimerId := 0
  velocity := ⟨0, 0⟩
  currentTweet := QJsonValue.Null
  unfloatAnimation := ⟨⟨0, 0⟩, ⟨0, 0⟩, 0⟩
  floatInAnimation := ⟨⟨0, 0⟩, ⟨0, 0⟩, 0⟩
  floatOutAnimation := ⟨⟨0, 0⟩, ⟨0, 0⟩, 0⟩
  relevantWords := []
  tableRows := []
  columnCount := 4
  tweetFramePos := ⟨0, 0⟩
  tweetFrameWidth := 300
  tweetFrameHeight := 200
  singleShots := 0
  requests := []

/-! ## Qt helpers on numbers -/

/-- C++ conversion `int(d)` of a `qreal`: truncation toward zero. -/
def truncToInt (d : ℚ) : Int := Int.tdiv d.num d.den

/-- The function `qRound(double)` of Qt 5:
`d >= 0.0 ? int(d + 0.5) : int(d - double(int(d-1)) + 0.5) + int(d-1)`. -/
def qRound (d : ℚ) : Int :=
  if 0 ≤ d then truncToInt (d + 1 / 2)
  else truncToInt (d - (truncToInt (d - 1) : ℚ) + 1 / 2) + truncToInt (d - 1)

/-- The conversion `QPointF::toPoint()`. -/
def QPointF.toPoint (v : QPointF) : QPoint := ⟨qRound v.x, qRound v.y⟩

/-- Whether `v.manhattanLength() > M_SQRT2`, decided on the squares. -/
def exceedsSqrt2 (v : QPointF) : Bool := decide (2 < (|v.x| + |v.y|) * (|v.x| + |v.y|))

/-- Identifier returned by `startTimer`: some non-zero number. -/
def startTimer : Nat := 1

/-! ## Motion of the card -/

/-- The function `MainWindow::unfloatTweet` (lines 322-329). -/
def unfloatTweet (s : MainWindow) : MainWindow :=
  { s with
    unfloatAnimation :=
      { startValue := s.tweetFramePos
        endValue := s.originalTweetFramePos
        starts := s.unfloatAnimation.starts + 1 }
    opacity := Opacity.full }

/-- The function `MainWindow::startMotion` (lines 332-339). -/
def startMotion (s : MainWindow) (velocity : QPointF) : MainWindow :=
  { s with
    lastTweetFramePos := s.tweetFramePos
    velocity := velocity
    mouseMoveTimerId := if s.mouseMoveTimerId = 0 then startTimer else s.mouseMoveTimerId }

/-- The function `MainWindow::stopMotion` (lines 342-350). -/
def stopMotion (s : MainWindow) : MainWindow :=
  { s with mouseMoveTimerId := 0, velocity := ⟨0, 0⟩ }

/-- The function `MainWindow::likeLimit` (line 355). -/
def likeLimit (s : MainWindow) : Int := s.tweetFrameWidth

/-- The function `MainWindow::dislikeLimit` (line 361). -/
def dislikeLimit (s : MainWindow) : Int := -likeLimit s

/-- The function `MainWindow::tweetFloating` (lines 365-369). -/
def tweetFloating (s : MainWindow) : Bool :=
  decide (dislikeLimit s < s.tweetFramePos.x) && decide (s.tweetFramePos.x < likeLimit s)

/-! ## The timeline model -/

/-- The function `MainWindow::calculateMostRecentId` (lines 518-536). -/
def calculateMostRecentId (s : MainWindow) : MainWindow :=
  let m0 := tweetId s.currentTweet
  let m1 := if !s.storedTweets.isEmpty then max (tweetId (first s.storedTweets)) m0 else m0
  let m2 := if !s.badTweets.isEmpty then max (tweetId (first s.badTweets)) m1 else m1
  let m3 := if !s.goodTweets.isEmpty then max (tweetId (first s.goodTweets)) m2 else m2
  { s with mostRecentId := m3 }

/-- The function `MainWindow::pickNextTweet` (lines 602-636).  The chips laid out for
the words of the post are not part of the model. -/
def pickNextTweet (s : MainWindow) : MainWindow :=
  let s1 := stopMotion s
  if 0 < s1.columnCount ∧ 0 < rowCount s1 then
    let s2 := { s1 with currentTweet := first s1.storedTweets }
    let s3 := { s2 with storedTweets := pop_front s2.storedTweets }
    let s4 := calculateMostRecentId s3
    let s5 := { s4 with tableRows := s4.tableRows.eraseIdx 0 }
    { s5 with
      floatInAnimation :=
        { startValue :=
            ⟨s5.originalTweetFramePos.x, s5.originalTweetFramePos.y + s5.tweetFrameHeight⟩
          endValue := s5.originalTweetFramePos
          starts := s5.floatInAnimation.starts + 1 }
      opacity := Opacity.full }
  else s1

/-- The function `MainWindow::getUserTimeline` (lines 718-729): one request is issued. -/
def getUserTimeline (s : MainWindow) : MainWindow :=
  { s with
    requests := s.requests ++
      [if s.mostRecentId > 0 then O1RequestParameter.since_id s.mostRecentId
       else O1RequestParameter.count200] }

/-- The function `MainWindow::buildTable(const QJsonArray &)` (lines 639-685). -/
def buildTable (s : MainWindow) (mostRecentTweets : List QJsonValue) : MainWindow :=
  let s1 :=
    if !mostRecentTweets.isEmpty then
      { s with storedTweets := mergeTweets s.storedTweets mostRecentTweets }
    else s
  let s2 := calculateMostRecentId s1
  if s2.storedTweets.isEmpty && !s2.tableBuildCalled then getUserTimeline s2
  else
    let s3 := { s2 with tableBuildCalled := true }
    let s4 := { s3 with tableRows := ids s3.storedTweets }
    pickNextTweet s4

/-- The function `MainWindow::gotUserTimeline` (lines 694-715).  The error branch only
shows messages. -/
def gotUserTimeline (s : MainWindow) (reply : QNetworkReply) : MainWindow :=
  match reply with
  | QNetworkReply.Error => s
  | QNetworkReply.NoError mostRecentTweets =>
    let s1 :=
      if !s.currentTweet.isNull then
        { s with
          storedTweets := push_front s.currentTweet s.storedTweets
          currentTweet := QJsonValue.Null }
      else s
    buildTable s1 mostRecentTweets

/-- The function `MainWindow::like` (lines 787-796). -/
def like (s : MainWindow) : MainWindow :=
  let s1 := stopMotion s
  let s2 := { s1 with goodTweets := push_front s1.currentTweet s1.goodTweets }
  { s2 with
    floatOutAnimation :=
      { startValue := s2.tweetFramePos
        endValue :=
          ⟨s2.originalTweetFramePos.x + 3 * s2.tweetFrameWidth * 2, s2.originalTweetFramePos.y + 0⟩
        starts := s2.floatOutAnimation.starts + 1 }
    singleShots := s2.singleShots + 1 }

/-- The function `MainWindow::dislike` (lines 799-808). -/
def dislike (s : MainWindow) : MainWindow :=
  let s1 := stopMotion s
  let s2 := { s1 with badTweets := push_front s1.currentTweet s1.badTweets }
  { s2 with
    floatOutAnimation :=
      { startValue := s2.tweetFramePos
        endValue :=
          ⟨s2.originalTweetFramePos.x - Int.tdiv (3 * s2.tweetFrameWidth) 2,
            s2.originalTweetFramePos.y - 0⟩
        starts := s2.floatOutAnimation.starts + 1 }
    singleShots := s2.singleShots + 1 }

/-! ## Pointer input -/

/-- Lines 375-380 of `scrollBy`: the card is moved and its opacity set. -/
def scrollByMove (s : MainWindow) (offset : QPoint) : MainWindow :=
  let s1 := { s with tweetFramePos := ⟨offset.x + s.lastTweetFramePos.x, s.lastTweetFramePos.y⟩ }
  let s2 := { s1 with lastTweetFramePos := s1.tweetFramePos }
  { s2 with opacity := Opacity.scrolled s2.tweetFrameWidth s2.tweetFramePos.x }

/-- The function `MainWindow::scrollBy` (lines 372-387). -/
def scrollBy (s : MainWindow) (offset : QPoint) : MainWindow :=
  let s1 := scrollByMove s offset
  if s1.tweetFramePos.x < dislikeLimit s1 then dislike s1
  else if s1.tweetFramePos.x > likeLimit s1 then like s1
  else s1

/-- The function `MainWindow::timerEvent` (lines 305-319). -/
def timerEvent (s : MainWindow) (timerId : Nat) : MainWindow :=
  if timerId = s.mouseMoveTimerId then
    if exceedsSqrt2 s.velocity then
      let s1 := scrollBy s s.velocity.toPoint
      { s1 with velocity := ⟨s1.velocity.x * Friction, s1.velocity.y * Friction⟩ }
    else
      let s1 := stopMotion s
      if tweetFloating s1 then unfloatTweet s1 else s1
  else s

/-- The velocity `1000 * moveDist / dt / TimeInterval` of line 433, for
`moveDist = QPointF(dx, 0)`.  For `dt = 0` the C++ value is infinite or not a number
and the value here is 0; statements about the velocity are made for `dt ≠ 0`. -/
def initialVector (dx dt : Int) : QPointF :=
  ⟨1000 * (dx : ℚ) / (dt : ℚ) / (TimeInterval : ℚ), 1000 * 0 / (dt : ℚ) / (TimeInterval : ℚ)⟩

/-- The three pointer cases of `MainWindow::eventFilter` (lines 390-452). -/
def eventFilter (s : MainWindow) (event : QEvent) : MainWindow :=
  match event with
  | QEvent.MouseButtonPress onTweetFrame leftButton globalPos =>
    if onTweetFrame && leftButton then
      { s with
        lastTweetFramePos := s.tweetFramePos
        lastMousePos := globalPos
        mouseDown := true
        kineticData := [] }
    else s
  | QEvent.MouseMove onTweetFrame globalPos elapsed =>
    if s.mouseDown && onTweetFrame then
      let s1 := scrollBy s ⟨globalPos.x - s.lastMousePos.x, 0⟩
      let s2 := { s1 with kineticData := s1.kineticData ++ [KineticData.mk globalPos elapsed] }
      let s3 :=
        if s2.kineticData.length > MaxKineticDataSamples then
          { s2 with kineticData := s2.kineticData.eraseIdx 0 }
        else s2
      { s3 with lastMousePos := globalPos }
    else s
  | QEvent.MouseButtonRelease onTweetFrame leftButton globalPos elapsed elapsed2 =>
    if onTweetFrame && leftButton then
      let s1 := { s with mouseDown := false }
      match s1.kineticData.head?, s1.kineticData.getLast? with
      | some oldest, some newest =>
        if s1.kineticData.length = MaxKineticDataSamples then
          let timeSinceLastMoveEvent := elapsed - newest.t
          if timeSinceLastMoveEvent < 100 then
            let dt := elapsed2 - oldest.t
            startMotion s1 (initialVector (globalPos.x - oldest.p.x) dt)
          else unfloatTweet s1
        else s1
      | _, _ => s1
    else s
  | QEvent.Other => s

/-! ## Scenario states -/

/-- First run (S1): no files, the first `buildTable` asks for the timeline and the
reply holds the posts 30, 20, 10.  Post 30 is on the card, 20 and 10 are incoming. -/
def firstRun : MainWindow :=
  gotUserTimeline (buildTable startup [])
    (QNetworkReply.NoError
      [QJsonValue.Object 30 "c", QJsonValue.Object 20 "b", QJsonValue.Object 10 "a"])

/-- The drag of S2 on the card of `firstRun`: a press at x = 0 and five moves,
`(t, x) = (0, 0), (25, 40), (50, 80), (75, 140), (100, 220)`. -/
def dragged : MainWindow :=
  [QEvent.MouseMove true ⟨0, 0⟩ 0, QEvent.MouseMove true ⟨40, 0⟩ 25,
    QEvent.MouseMove true ⟨80, 0⟩ 50, QEvent.MouseMove true ⟨140, 0⟩ 75,
    QEvent.MouseMove true ⟨220, 0⟩ 100].foldl eventFilter
    (eventFilter firstRun (QEvent.MouseButtonPress true true ⟨0, 0⟩))

/-- A press on the card of `firstRun` followed by two moves only. -/
def draggedBriefly : MainWindow :=
  [QEvent.MouseMove true ⟨0, 0⟩ 0, QEvent.MouseMove true ⟨40, 0⟩ 25].foldl eventFilter
    (eventFilter firstRun (QEvent.MouseButtonPress true true ⟨0, 0⟩))

/-! ## Incoming after a fetch -/

/-- Incoming after lines 708-711 of `gotUserTimeline`: a post on the card is put back
in front. -/
def pushedBack (s : MainWindow) : List QJsonValue :=
  if !s.currentTweet.isNull then push_front s.currentTweet s.storedTweets else s.storedTweets

/-- Incoming after lines 642-643 of `buildTable`: a non-empty batch is merged. -/
def mergedWith (stored batch : List QJsonValue) : List QJsonValue :=
  if !batch.isEmpty then mergeTweets stored batch else stored

/-- Incoming as a successful fetch leaves it just before `pickNextTweet` runs. -/
def mergedIncoming (s : MainWindow) (batch : List QJsonValue) : List QJsonValue :=
  mergedWith (pushedBack s) batch

/-! ## Consistency of the four sets -/

/-- The post on the card, if there is one (the test `!currentTweet.isNull()`). -/
def currentPosts (s : MainWindow) : List QJsonValue :=
  if s.currentTweet.isNull then [] else [s.currentTweet]

/-- Identities of the card and of incoming, card first. -/
def queueIds (s : MainWindow) : List Int := ids (currentPosts s ++ s.storedTweets)

/-- Every identity held by the model, with repetitions: card, incoming, liked,
disliked. -/
def knownIds (s : MainWindow) : List Int :=
  queueIds s ++ ids s.goodTweets ++ ids s.badTweets

/-- A state is consistent when no identity occurs twice among card, incoming, liked and
disliked, the card followed by incoming is sorted by identity descending, and the
table shows no more rows than incoming has posts. -/
def Consistent (s : MainWindow) : Prop :=
  (knownIds s).Nodup ∧ (queueIds s).Sorted (· ≥ ·) ∧ rowCount s ≤ s.storedTweets.length

/-- Quiescent points reached from `s0`: after a fetch (failed, or successful with a
batch that repeats no identity and holds none that is liked or disliked), after the
`pickNextTweet` that follows a `like` or `dislike` of the post on the card made while
the table shows a row, and after a `pickNextTweet` on its own. -/
inductive Quiescent (s0 : MainWindow) : MainWindow → Prop where
  | start : Quiescent s0 s0
  | fetched (s : MainWindow) (batch : List QJsonValue) :
      Quiescent s0 s → (ids batch).Nodup →
      (∀ i ∈ ids batch, i ∉ ids s.goodTweets ∧ i ∉ ids s.badTweets) →
      Quiescent s0 (gotUserTimeline s (QNetworkReply.NoError batch))
  | fetchFailed (s : MainWindow) :
      Quiescent s0 s → Quiescent s0 (gotUserTimeline s QNetworkReply.Error)
  | liked (s : MainWindow) :
      Quiescent s0 s → s.currentTweet.isNull = false → 0 < s.columnCount → 0 < rowCount s →
      Quiescent s0 (pickNextTweet (like s))
  | disliked (s : MainWindow) :
      Quiescent s0 s → s.currentTweet.isNull = false → 0 < s.columnCount → 0 < rowCount s →
      Quiescent s0 (pickNextTweet (dislike s))
  | picked (s : MainWindow) : Quiescent s0 s → Quiescent s0 (pickNextTweet s)

/-! ## Table rows and relevant words -/

/-- The function `MainWindow::onDeleteTweet` (lines 564-574).  `selectedRows` holds the
row numbers of `select->selectedRows()` in the order of the loop (empty when nothing is
selected); `removeRow` does nothing for a row number the table does not have. -/
def onDeleteTweet (s : MainWindow) (selectedRows : List Nat) : MainWindow :=
  { s with tableRows := selectedRows.foldl (fun rows row => rows.eraseIdx row) s.tableRows }

/-- The key by which `QString::compare(..., Qt::CaseInsensitive)` orders a string: its
characters with letters folded to lower case (ASCII letters here). -/
def caseFold (a : String) : List Nat := a.data.map (fun c => c.toLower.toNat)

/-- The comparator `wordComparator` (line 74): `a.compare(b, Qt::CaseInsensitive) < 0`. -/
def wordComparator (a b : String) : Bool := decide (caseFold a < caseFold b)

/-- The characters of the class `[#\w-']` of `reWord` (line 545), `\w` on ASCII. -/
def isWordChar (c : Char) : Bool :=
  c == '#' || c == '-' || c == Char.ofNat 39 || c == '_' || c.isAlphanum

/-- The text `reWord.cap()` after `reWord.exactMatch(text)` (lines 545-547): the longest
run of characters of the class at the start of the text. -/
def reWordCap (text : String) : String := String.mk (text.data.takeWhile isWordChar)

/-- The function `QString::trimmed()`: white space removed at both ends. -/
def trimmed (a : String) : String :=
  String.mk ((a.data.dropWhile Char.isWhitespace).reverse.dropWhile Char.isWhitespace).reverse

/-- The function `MainWindow::wordSelected` (lines 539-554).  `sender` is the text of
the chip that sent the signal, `none` when `sender()` is null. -/
def wordSelected (s : MainWindow) (sender : Option String) : MainWindow :=
  match sender with
  | none => s
  | some text =>
    let w := trimmed (reWordCap text)
    match qBinaryFind wordComparator s.relevantWords w with
    | none => { s with relevantWords := qSort wordComparator (s.relevantWords ++ [w]) }
    | some _ => s

/-- States reached from `s0` by the slots and handlers of the window: `buildTable`,
replies to a timeline request (failed or successful), row deletions, `like`, `dislike`,
`pickNextTweet`, pointer events, timer ticks and clicks on a word. -/
inductive Reachable (s0 : MainWindow) : MainWindow → Prop where
  | start : Reachable s0 s0
  | built (s : MainWindow) (batch : List QJsonValue) :
      Reachable s0 s → Reachable s0 (buildTable s batch)
  | replied (s : MainWindow) (reply : QNetworkReply) :
      Reachable s0 s → Reachable s0 (gotUserTimeline s reply)
  | deleted (s : MainWindow) (selectedRows : List Nat) :
      Reachable s0 s → Reachable s0 (onDeleteTweet s selectedRows)
  | liked (s : MainWindow) : Reachable s0 s → Reachable s0 (like s)
  | disliked (s : MainWindow) : Reachable s0 s → Reachable s0 (dislike s)
  | picked (s : MainWindow) : Reachable s0 s → Reachable s0 (pickNextTweet s)
  | pointer (s : MainWindow) (event : QEvent) :
      Reachable s0 s → Reachable s0 (eventFilter s event)
  | tick (s : MainWindow) (timerId : Nat) : Reachable s0 s → Reachable s0 (timerEvent s timerId)
  | word (s : MainWindow) (sender : Option String) :
      Reachable s0 s → Reachable s0 (wordSelected s sender)

/-- The first run with post 30 on the card and rows 20, 10 in the table, after the
row of post 20 has been deleted. -/
def rowDeleted : MainWindow := onDeleteTweet firstRun [0]

/-! ## Binary search -/

theorem qLowerBoundLoop_bounds {α : Type} (lessThan : α → α → Bool) (xs : List α) (v : α) :
    ∀ (fuel start n : Nat), n ≤ fuel → start + n ≤ xs.length →
      start ≤ qLowerBoundLoop lessThan xs v fuel start n ∧
      qLowerBoundLoop lessThan xs v fuel start n ≤ start + n ∧
      (qLowerBoundLoop lessThan xs v fuel start n < start + n →
        ∃ x, xs[qLowerBoundLoop lessThan xs v fuel start n]? = some x ∧
          lessThan x v = false) := by
  intro fuel
  induction fuel with
  | zero =>
    intro start n hn _
    have h0 : n = 0 := by omega
    subst h0
    simp [qLowerBoundLoop]
  | succ fuel ih =>
    intro start n hn hlen
    unfold qLowerBoundLoop
    by_cases hpos : 0 < n
    · have hmid : start + n / 2 < xs.length := by omega
      simp only [hpos, if_true, List.getElem?_eq_getElem hmid]
      by_cases hlt : lessThan xs[start + n / 2] v = true
      · simp only [hlt, if_true]
        have h := ih (start + n / 2 + 1) (n - (n / 2 + 1)) (by omega) (by omega)
        have e : start + n / 2 + 1 + (n - (n / 2 + 1)) = start + n := by omega
        rw [e] at h
        exact ⟨by omega, h.2.1, h.2.2⟩
      · have hlt' : lessThan xs[start + n / 2] v = false := by simpa using hlt
        simp only [hlt', Bool.false_eq_true, if_false]
        have h := ih start (n / 2) (by omega) (by omega)
        refine ⟨h.1, by omega, fun _ => ?_⟩
        by_cases hr : qLowerBoundLoop lessThan xs v fuel start (n / 2) < start + n / 2
        · exact h.2.2 hr
        · have e : qLowerBoundLoop lessThan xs v fuel start (n / 2) = start + n / 2 := by
            omega
          rw [e]
          exact ⟨xs[start + n / 2], List.getElem?_eq_getElem hmid, hlt'⟩
    · have h0 : n = 0 := by omega
      subst h0
      simp

theorem qLowerBoundLoop_before {α : Type} (lessThan : α → α → Bool) (xs : List α) (v : α)
    (hmono : ∀ (i j : Nat) (x y : α), i ≤ j → xs[i]? = some x → xs[j]? = some y →
      lessThan y v = true → lessThan x v = true) :
    ∀ (fuel start n : Nat), n ≤ fuel → start + n ≤ xs.length →
      ∀ i x, start ≤ i → i < qLowerBoundLoop lessThan xs v fuel start n →
        xs[i]? = some x → lessThan x v = true := by
  intro fuel
  induction fuel with
  | zero =>
    intro start n _ _ i x h1 h2
    simp [qLowerBoundLoop] at h2
    omega
  | succ fuel ih =>
    intro start n hn hlen i x h1 h2 hx
    unfold qLowerBoundLoop at h2
    by_cases hpos : 0 < n
    · have hmid : start + n / 2 < xs.length := by omega
      simp only [hpos, if_true, List.getElem?_eq_getElem hmid] at h2
      by_cases hlt : lessThan xs[start + n / 2] v = true
      · simp only [hlt, if_true] at h2
        by_cases hi : i ≤ start + n / 2
        · exact hmono i (start + n / 2) x _ hi hx (List.getElem?_eq_getElem hmid) hlt
        · exact ih (start + n / 2 + 1) (n - (n / 2 + 1)) (by omega) (by omega) i x
            (by omega) h2 hx
      · have hlt' : lessThan xs[start + n / 2] v = false := by simpa using hlt
        simp only [hlt', Bool.false_eq_true, if_false] at h2
        exact ih start (n / 2) (by omega) (by omega) i x h1 h2 hx
    · simp only [hpos, if_false] at h2
      omega

theorem qBinaryFind_of_some {α : Type} (lessThan : α → α → Bool) (xs : List α) (v x : α)
    (hx : xs[qLowerBound lessThan xs v]? = some x) :
    qBinaryFind lessThan xs v =
      if lessThan v x then none else some (qLowerBound lessThan xs v) := by
  simp only [qBinaryFind, hx]

theorem qBinaryFind_of_none {α : Type} (lessThan : α → α → Bool) (xs : List α) (v : α)
    (hx : xs[qLowerBound lessThan xs v]? = none) :
    qBinaryFind lessThan xs v = none := by
  simp only [qBinaryFind, hx]

/-- A hit of the binary search is an item that the comparator does not separate from
the value, whatever the order of the array. -/
theorem qBinaryFind_sound {α : Type} (lessThan : α → α → Bool) (xs : List α) (v : α)
    (i : Nat) (h : qBinaryFind lessThan xs v = some i) :
    ∃ x ∈ xs, lessThan x v = false ∧ lessThan v x = false := by
  have hb := qLowerBoundLoop_bounds lessThan xs v xs.length 0 xs.length (le_refl _) (by omega)
  simp only [Nat.zero_add] at hb
  by_cases hr : qLowerBound lessThan xs v < xs.length
  · obtain ⟨x, hx, hxv⟩ := hb.2.2 hr
    change xs[qLowerBound lessThan xs v]? = some x at hx
    rw [qBinaryFind_of_some lessThan xs v x hx] at h
    by_cases hvx : lessThan v x = true
    · simp [hvx] at h
    · exact ⟨x, List.getElem?_mem hx, hxv, by simpa using hvx⟩
  · have hnone : xs[qLowerBound lessThan xs v]? = none :=
      List.getElem?_eq_none (by omega)
    rw [qBinaryFind_of_none lessThan xs v hnone] at h
    simp at h

theorem ids_ge_of_sorted (xs : List QJsonValue) (hs : (ids xs).Sorted (· ≥ ·))
    (i j : Nat) (x y : QJsonValue) (hij : i ≤ j) (hx : xs[i]? = some x)
    (hy : xs[j]? = some y) : tweetId x ≥ tweetId y := by
  rcases Nat.eq_or_lt_of_le hij with h | h
  · subst h
    rw [hx] at hy
    cases hy
    exact le_refl _
  · obtain ⟨hi, rfl⟩ := List.getElem?_eq_some.1 hx
    obtain ⟨hj, rfl⟩ := List.getElem?_eq_some.1 hy
    have hp := (List.pairwise_iff_getElem.1 hs) i j (by simpa [ids] using hi)
      (by simpa [ids] using hj) h
    simpa [ids] using hp

/-- On an array sorted by identity descending the binary search misses a value exactly
when no item has its identity. -/
theorem qBinaryFind_none_iff (xs : List QJsonValue) (v : QJsonValue)
    (hs : (ids xs).Sorted (· ≥ ·)) :
    qBinaryFind idComparator xs v = none ↔ tweetId v ∉ ids xs := by
  constructor
  · intro hnone hmem
    obtain ⟨y, hy, hyv⟩ := List.mem_map.1 hmem
    obtain ⟨j, hj⟩ := List.getElem?_of_mem hy
    have hjlen : j < xs.length := (List.getElem?_eq_some.1 hj).1
    have hmono : ∀ (a b : Nat) (x z : QJsonValue), a ≤ b → xs[a]? = some x →
        xs[b]? = some z → idComparator z v = true → idComparator x v = true := by
      intro a b x z hab hx hz hzv
      have hge := ids_ge_of_sorted xs hs a b x z hab hx hz
      simp only [idComparator, decide_eq_true_eq] at hzv ⊢
      omega
    have hpre := qLowerBoundLoop_before idComparator xs v hmono xs.length 0 xs.length
      (le_refl _) (by omega)
    have hb := qLowerBoundLoop_bounds idComparator xs v xs.length 0 xs.length (le_refl _)
      (by omega)
    simp only [Nat.zero_add] at hb
    have hrj : qLowerBound idComparator xs v ≤ j := by
      by_contra hcon
      have := hpre j y (Nat.zero_le _) (by unfold qLowerBound at hcon; omega) hj
      simp only [idComparator, decide_eq_true_eq] at this
      omega
    obtain ⟨x, hx, hxv⟩ := hb.2.2 (by unfold qLowerBound at hrj; omega)
    change xs[qLowerBound idComparator xs v]? = some x at hx
    have hge := ids_ge_of_sorted xs hs _ j x y hrj hx hj
    simp only [idComparator, decide_eq_false_iff_not, not_lt] at hxv
    have hvx : idComparator v x = false := by
      simp only [idComparator, decide_eq_false_iff_not, not_lt]
      omega
    rw [qBinaryFind_of_some idComparator xs v x hx] at hnone
    simp [hvx] at hnone
  · intro hnot
    cases hf : qBinaryFind idComparator xs v with
    | none => rfl
    | some i =>
      exfalso
      obtain ⟨x, hx, h1, h2⟩ := qBinaryFind_sound idComparator xs v i hf
      apply hnot
      simp only [idComparator, decide_eq_false_iff_not, not_lt] at h1 h2
      have : tweetId x = tweetId v := le_antisymm h1 h2
      rw [← this]
      exact List.mem_map_of_mem _ hx

/-! ## Sorting and merging -/

theorem qSwap_length {α : Type} (a : List α) (i j : Nat) : (qSwap a i j).length = a.length := by
  unfold qSwap
  split <;> simp

theorem qSwap_getElem? {α : Type} (a : List α) (i j k : Nat) (hi : i < a.length)
    (hj : j < a.length) :
    (qSwap a i j)[k]? = if k = j then a[i]? else if k = i then a[j]? else a[k]? := by
  unfold qSwap
  rw [List.getElem?_eq_getElem hi, List.getElem?_eq_getElem hj]
  simp only [List.getElem?_set, List.length_set]
  by_cases h1 : k = j
  · subst h1
    simp [hj]
  · by_cases h2 : k = i
    · subst h2
      simp [h1, hi, Ne.symm h1]
    · simp [h1, h2, Ne.symm h1, Ne.symm h2]

theorem qSwap_perm {α : Type} (a : List α) (i j : Nat) : (qSwap a i j).Perm a := by
  classical
  unfold qSwap
  cases hi : a[i]? with
  | none => exact List.Perm.refl _
  | some x =>
    cases hj : a[j]? with
    | none => exact List.Perm.refl _
    | some y =>
      obtain ⟨hil, rfl⟩ := List.getElem?_eq_some.1 hi
      obtain ⟨hjl, rfl⟩ := List.getElem?_eq_some.1 hj
      simp only
      rw [List.perm_iff_count]
      intro b
      have hjl2 : j < (a.set i a[j]).length := by simpa using hjl
      rw [List.count_set _ _ _ _ hjl2, List.count_set _ _ _ _ hil]
      have hget : (a.set i a[j])[j] = a[j] := by
        rw [List.getElem_set]
        split
        · rfl
        · rfl
      rw [hget]
      have h1 : (if a[i] == b then 1 else 0) ≤ List.count b a := by
        split
        · rename_i h
          have : a[i] = b := by simpa using h
          rw [← this]
          exact List.count_pos_iff.2 (List.getElem_mem _)
        · omega
      omega

theorem lessAt_eq {α : Type} (lessThan : α → α → Bool) (a : List α) (i j : Nat) (x y : α)
    (hx : a[i]? = some x) (hy : a[j]? = some y) : lessAt lessThan a i j = lessThan x y := by
  simp only [lessAt, hx, hy]

theorem Within.refl {α : Type} (a : List α) (s e : Nat) : Within a a s e :=
  ⟨rfl, List.Perm.refl _, fun _ _ => rfl, fun _ h => h⟩

theorem Within.trans {α : Type} {a b c : List α} {s e : Nat} (h1 : Within a b s e)
    (h2 : Within b c s e) : Within a c s e :=
  ⟨h2.1.trans h1.1, h2.2.1.trans h1.2.1, fun i hi => (h2.2.2.1 i hi).trans (h1.2.2.1 i hi),
    fun Q hQ => h2.2.2.2 Q (h1.2.2.2 Q hQ)⟩

theorem Within.mono {α : Type} {a b : List α} {s e s' e' : Nat} (h : Within a b s e)
    (hs : s' ≤ s) (he : e ≤ e') : Within a b s' e' := by
  refine ⟨h.1, h.2.1, fun i hi => h.2.2.1 i (by omega), fun Q hQ i x h1 h2 hx => ?_⟩
  by_cases hin : s ≤ i ∧ i < e
  · exact h.2.2.2 Q (fun k y hk1 hk2 hy => hQ k y (by omega) (by omega) hy) i x hin.1 hin.2 hx
  · rw [h.2.2.1 i (by omega)] at hx
    exact hQ i x h1 h2 hx

theorem qSwap_within {α : Type} (a : List α) (i j s e : Nat) (hsi : s ≤ i) (hie : i < e)
    (hsj : s ≤ j) (hje : j < e) (he : e ≤ a.length) : Within a (qSwap a i j) s e := by
  refine ⟨qSwap_length a i j, qSwap_perm a i j, fun k hk => ?_, fun Q hQ k x h1 h2 hx => ?_⟩
  · rw [qSwap_getElem? a i j k (by omega) (by omega)]
    rw [if_neg (by omega), if_neg (by omega)]
  · rw [qSwap_getElem? a i j k (by omega) (by omega)] at hx
    split at hx
    · exact hQ i x hsi hie hx
    · split at hx
      · exact hQ j x hsj hje hx
      · exact hQ k x h1 h2 hx


theorem scanLow_spec {α κ : Type} [LinearOrder κ] (key : α → κ) (lessThan : α → α → Bool)
    (hlt : ∀ a b, lessThan a b = true ↔ key a < key b) (a : List α) (last high : Nat)
    (p : α) (hp : a[last]? = some p) (hh : high ≤ a.length) :
    ∀ (fuel low : Nat), high - low ≤ fuel → low ≤ high →
      low ≤ scanLow lessThan a last high fuel low ∧
      scanLow lessThan a last high fuel low ≤ high ∧
      AllIn a low (scanLow lessThan a last high fuel low) (fun x => key x < key p) ∧
      (scanLow lessThan a last high fuel low < high →
        ∀ x, a[scanLow lessThan a last high fuel low]? = some x → key p ≤ key x) := by
  intro fuel
  induction fuel with
  | zero =>
    intro low hf hl
    have e : low = high := by omega
    subst e
    simp only [scanLow]
    exact ⟨le_refl _, le_refl _, fun i x h1 h2 _ => by omega, fun h => by omega⟩
  | succ fuel ih =>
    intro low hf hl
    unfold scanLow
    by_cases hc : low < high
    · have hlow : low < a.length := by omega
      have hx := List.getElem?_eq_getElem hlow
      rw [lessAt_eq lessThan a low last _ p hx hp]
      by_cases hl2 : lessThan a[low] p = true
      · simp only [hc, hl2, decide_True, Bool.and_self, if_true]
        obtain ⟨h1, h2, h3, h4⟩ := ih (low + 1) (by omega) (by omega)
        refine ⟨by omega, h2, fun i x hi1 hi2 hix => ?_, h4⟩
        by_cases hil : i = low
        · subst hil
          rw [hx] at hix
          cases hix
          exact (hlt _ _).1 hl2
        · exact h3 i x (by omega) hi2 hix
      · have hl3 : lessThan a[low] p = false := by simpa using hl2
        simp only [hl3, Bool.and_false, Bool.false_eq_true, if_false]
        refine ⟨le_refl _, hl, fun i x h1 h2 _ => by omega, fun _ x hx2 => ?_⟩
        rw [hx] at hx2
        cases hx2
        rw [← not_lt, ← hlt]
        simpa using hl3
    · simp only [hc, decide_False, Bool.false_and, Bool.false_eq_true, if_false]
      exact ⟨le_refl _, hl, fun i x h1 h2 _ => by omega, fun h => h.elim⟩

theorem scanHigh_spec {α κ : Type} [LinearOrder κ] (key : α → κ) (lessThan : α → α → Bool)
    (hlt : ∀ a b, lessThan a b = true ↔ key a < key b) (a : List α) (last low : Nat)
    (p : α) (hp : a[last]? = some p) :
    ∀ (fuel high : Nat), high - low ≤ fuel → low ≤ high → high < a.length →
      low ≤ scanHigh lessThan a last low fuel high ∧
      scanHigh lessThan a last low fuel high ≤ high ∧
      AllIn a (scanHigh lessThan a last low fuel high + 1) (high + 1)
        (fun x => key p < key x) ∧
      (low < scanHigh lessThan a last low fuel high →
        ∀ x, a[scanHigh lessThan a last low fuel high]? = some x → key x ≤ key p) := by
  intro fuel
  induction fuel with
  | zero =>
    intro high hf hl hlen
    have e : high = low := by omega
    subst e
    simp only [scanHigh]
    exact ⟨le_refl _, le_refl _, fun i x h1 h2 _ => by omega, fun h => by omega⟩
  | succ fuel ih =>
    intro high hf hl hlen
    unfold scanHigh
    by_cases hc : high > low
    · have hx := List.getElem?_eq_getElem hlen
      rw [lessAt_eq lessThan a last high p _ hp hx]
      by_cases hl2 : lessThan p a[high] = true
      · simp only [hc, hl2, decide_True, Bool.and_self, if_true]
        obtain ⟨h1, h2, h3, h4⟩ := ih (high - 1) (by omega) (by omega) (by omega)
        refine ⟨h1, by omega, fun i x hi1 hi2 hix => ?_, h4⟩
        by_cases hil : i = high
        · subst hil
          rw [hx] at hix
          cases hix
          exact (hlt _ _).1 hl2
        · exact h3 i x hi1 (by omega) hix
      · have hl3 : lessThan p a[high] = false := by simpa using hl2
        simp only [hl3, Bool.and_false, Bool.false_eq_true, if_false]
        refine ⟨hl, le_refl _, fun i x h1 h2 _ => by omega, fun _ x hx2 => ?_⟩
        rw [hx] at hx2
        cases hx2
        rw [← not_lt, ← hlt]
        simpa using hl3
    · simp only [hc, decide_False, Bool.false_and, Bool.false_eq_true, if_false]
      exact ⟨hl, le_refl _, fun i x h1 h2 _ => by omega, fun h => h.elim⟩


theorem AllIn.weaken {α : Type} {a : List α} {lo hi lo' hi' : Nat} {P : α → Prop}
    (h : AllIn a lo hi P) (h1 : lo ≤ lo') (h2 : hi' ≤ hi) : AllIn a lo' hi' P :=
  fun i x hi1 hi2 hx => h i x (by omega) (by omega) hx

theorem partitionLoop_spec {α κ : Type} [LinearOrder κ] (key : α → κ)
    (lessThan : α → α → Bool) (hlt : ∀ a b, lessThan a b = true ↔ key a < key b)
    (s last : Nat) (p : α) :
    ∀ (fuel : Nat) (a : List α) (low high : Nat), high + 1 - low ≤ fuel → s ≤ low →
      low ≤ high + 1 → high < last → last < a.length → a[last]? = some p →
      AllIn a s low (fun x => key x ≤ key p) →
      AllIn a (high + 1) last (fun x => key p ≤ key x) →
      Within a (partitionLoop lessThan last fuel a low high).1 s last ∧
        s ≤ (partitionLoop lessThan last fuel a low high).2 ∧
        (partitionLoop lessThan last fuel a low high).2 ≤ last ∧
        AllIn (partitionLoop lessThan last fuel a low high).1 s
          (partitionLoop lessThan last fuel a low high).2 (fun x => key x ≤ key p) ∧
        AllIn (partitionLoop lessThan last fuel a low high).1
          ((partitionLoop lessThan last fuel a low high).2 + 1) last
          (fun x => key p ≤ key x) := by
  intro fuel
  induction fuel with
  | zero =>
    intro a low high hf hs hlh hhl hlen hp hlo hhi
    simp only [partitionLoop]
    exact ⟨Within.refl _ _ _, hs, by omega, hlo, hhi.weaken (by omega) (le_refl _)⟩
  | succ fuel ih =>
    intro a low high hf hs hlh hhl hlen hp hlo hhi
    unfold partitionLoop
    by_cases hc : low < high
    · simp only [hc, if_true]
      obtain ⟨l1, l2, l3, l4⟩ := scanLow_spec key lessThan hlt a last high p hp (by omega)
        (high - low) low (le_refl _) (by omega)
      generalize scanLow lessThan a last high (high - low) low = low1 at l1 l2 l3 l4 ⊢
      obtain ⟨g1, g2, g3, g4⟩ := scanHigh_spec key lessThan hlt a last low1 p hp
        (high - low1) high (le_refl _) l2 (by omega)
      generalize scanHigh lessThan a last low1 (high - low1) high = high1 at g1 g2 g3 g4 ⊢
      have hloA : AllIn a s low1 (fun x => key x ≤ key p) := by
        intro i x h1 h2 hx
        by_cases hi : i < low
        · exact hlo i x h1 hi hx
        · exact le_of_lt (l3 i x (by omega) h2 hx)
      have hhiA : AllIn a (high1 + 1) last (fun x => key p ≤ key x) := by
        intro i x h1 h2 hx
        by_cases hi : i ≤ high
        · exact le_of_lt (g3 i x h1 (by omega) hx)
        · exact hhi i x (by omega) h2 hx
      by_cases hc2 : low1 < high1
      · simp only [hc2, if_true]
        have hw : Within a (qSwap a low1 high1) s last :=
          qSwap_within a low1 high1 s last (by omega) (by omega) (by omega) (by omega)
            (by omega)
        have hget := fun k => qSwap_getElem? a low1 high1 k (by omega) (by omega)
        have hp2 : (qSwap a low1 high1)[last]? = some p := by
          rw [hw.2.2.1 last (Or.inr (le_refl _))]
          exact hp
        have hlo2 : AllIn (qSwap a low1 high1) s (low1 + 1) (fun x => key x ≤ key p) := by
          intro i x h1 h2 hx
          rw [hget i, if_neg (by omega)] at hx
          by_cases hi : i = low1
          · rw [if_pos hi] at hx
            exact g4 hc2 x hx
          · rw [if_neg hi] at hx
            exact hloA i x h1 (by omega) hx
        have hhi2 : AllIn (qSwap a low1 high1) (high1 - 1 + 1) last
            (fun x => key p ≤ key x) := by
          intro i x h1 h2 hx
          rw [hget i] at hx
          by_cases hi : i = high1
          · rw [if_pos hi] at hx
            exact l4 (by omega) x hx
          · rw [if_neg hi, if_neg (by omega)] at hx
            exact hhiA i x (by omega) h2 hx
        obtain ⟨r1, r2, r3, r4, r5⟩ := ih (qSwap a low1 high1) (low1 + 1) (high1 - 1)
          (by omega) (by omega) (by omega) (by omega) (by rw [hw.1]; exact hlen) hp2 hlo2
          hhi2
        exact ⟨hw.trans r1, r2, r3, r4, r5⟩
      · simp only [hc2, if_false]
        have e : low1 = high1 := by omega
        subst e
        exact ⟨Within.refl _ _ _, by omega, by omega, hloA, hhiA⟩
    · simp only [hc, if_false]
      exact ⟨Within.refl _ _ _, hs, by omega, hlo, hhi.weaken (by omega) (le_refl _)⟩


theorem swapIfLess_spec {α κ : Type} [LinearOrder κ] (key : α → κ)
    (lessThan : α → α → Bool) (hlt : ∀ a b, lessThan a b = true ↔ key a < key b)
    (a : List α) (i j s e : Nat) (x y : α) (hx : a[i]? = some x) (hy : a[j]? = some y)
    (hsi : s ≤ i) (hie : i < e) (hsj : s ≤ j) (hje : j < e) (he : e ≤ a.length) :
    Within a (swapIfLess lessThan a i j) s e ∧
      (∀ k, k ≠ i → k ≠ j → (swapIfLess lessThan a i j)[k]? = a[k]?) ∧
      ∃ x' y', (swapIfLess lessThan a i j)[i]? = some x' ∧
        (swapIfLess lessThan a i j)[j]? = some y' ∧ key y' ≤ key x' ∧
        ((x' = x ∧ y' = y) ∨ (x' = y ∧ y' = x)) := by
  unfold swapIfLess
  rw [lessAt_eq lessThan a i j x y hx hy]
  by_cases h : lessThan x y = true
  · rw [if_pos h]
    have hget := fun k => qSwap_getElem? a i j k (by omega) (by omega)
    refine ⟨qSwap_within a i j s e hsi hie hsj hje he, fun k h1 h2 => ?_, y, x, ?_, ?_,
      le_of_lt ((hlt _ _).1 h), Or.inr ⟨rfl, rfl⟩⟩
    · rw [hget k, if_neg h2, if_neg h1]
    · rw [hget i]
      by_cases hij : i = j
      · rw [if_pos hij, hij]
        exact hy
      · rw [if_neg hij, if_pos rfl]
        exact hy
    · rw [hget j, if_pos rfl]
      exact hx
  · have h' : lessThan x y = false := by simpa using h
    rw [if_neg (by simp [h'])]
    refine ⟨Within.refl _ _ _, fun _ _ _ => rfl, x, y, hx, hy, ?_, Or.inl ⟨rfl, rfl⟩⟩
    rw [← not_lt, ← hlt]
    simpa using h'


theorem partitionRange_spec {α κ : Type} [LinearOrder κ] (key : α → κ)
    (lessThan : α → α → Bool) (hlt : ∀ a b, lessThan a b = true ↔ key a < key b)
    (a : List α) (start pivot last : Nat) (hsp : start ≤ pivot) (hpl : pivot < last)
    (hlen : last < a.length) :
    ∃ p, Within a (partitionRange lessThan a start pivot last).1 start (last + 1) ∧
      start ≤ (partitionRange lessThan a start pivot last).2 ∧
      (partitionRange lessThan a start pivot last).2 ≤ last ∧
      (partitionRange lessThan a start pivot last).1[
        (partitionRange lessThan a start pivot last).2]? = some p ∧
      AllIn (partitionRange lessThan a start pivot last).1 start
        (partitionRange lessThan a start pivot last).2 (fun x => key x ≤ key p) ∧
      AllIn (partitionRange lessThan a start pivot last).1
        ((partitionRange lessThan a start pivot last).2 + 1) (last + 1)
        (fun x => key p ≤ key x) := by
  have hw4 : Within a (qSwap a pivot last) start (last + 1) :=
    qSwap_within a pivot last start (last + 1) hsp (by omega) (by omega) (by omega) (by omega)
  have hlen4 : last < (qSwap a pivot last).length := by rw [hw4.1]; exact hlen
  have hp4 := List.getElem?_eq_getElem hlen4
  generalize (qSwap a pivot last)[last] = p at hp4
  obtain ⟨r1, r2, r3, r4, r5⟩ := partitionLoop_spec key lessThan hlt start last p
    (last + 1 - start) (qSwap a pivot last) start (last - 1) (by omega) (le_refl _)
    (by omega) (by omega) hlen4 hp4 (fun i x h1 h2 _ => by omega)
    (fun i x h1 h2 _ => by omega)
  unfold partitionRange
  simp only []
  generalize partitionLoop lessThan last (last + 1 - start) (qSwap a pivot last) start
    (last - 1) = r at r1 r2 r3 r4 r5 ⊢
  have hlenr : last < r.1.length := by rw [r1.1]; exact hlen4
  have hpr : r.1[last]? = some p := by
    rw [r1.2.2.1 last (Or.inr (le_refl _))]
    exact hp4
  have hz := List.getElem?_eq_getElem (show r.2 < r.1.length by omega)
  generalize r.1[r.2] = z at hz
  rw [lessAt_eq lessThan r.1 r.2 last z p hz hpr]
  have hwr : Within a r.1 start (last + 1) := hw4.trans (r1.mono (le_refl _) (by omega))
  by_cases hzp : lessThan z p = true
  · rw [if_pos hzp]
    have hkz : key z < key p := (hlt _ _).1 hzp
    have hne : r.2 ≠ last := by
      intro h
      rw [h, hpr] at hz
      cases hz
      exact lt_irrefl _ hkz
    have hget := fun k => qSwap_getElem? r.1 last (r.2 + 1) k (by omega) (by omega)
    refine ⟨p, hwr.trans (qSwap_within r.1 last (r.2 + 1) start (last + 1) (by omega)
      (by omega) (by omega) (by omega) (by omega)), by omega, by omega, ?_, ?_, ?_⟩
    · rw [hget, if_pos rfl]
      exact hpr
    · intro i x h1 h2 hx
      rw [hget, if_neg (by omega), if_neg (by omega)] at hx
      by_cases hi : i = r.2
      · rw [hi, hz] at hx
        cases hx
        exact le_of_lt hkz
      · exact r4 i x h1 (by omega) hx
    · intro i x h1 h2 hx
      rw [hget, if_neg (by omega)] at hx
      by_cases hi : i = last
      · rw [if_pos hi] at hx
        exact r5 (r.2 + 1) x (le_refl _) (by omega) hx
      · rw [if_neg hi] at hx
        exact r5 i x (by omega) (by omega) hx
  · rw [if_neg hzp]
    have hkz : key p ≤ key z := by
      rw [← not_lt, ← hlt]
      exact hzp
    have hget := fun k => qSwap_getElem? r.1 last r.2 k (by omega) (by omega)
    refine ⟨p, hwr.trans (qSwap_within r.1 last r.2 start (last + 1) (by omega)
      (by omega) (by omega) (by omega) (by omega)), by omega, by omega, ?_, ?_, ?_⟩
    · rw [hget, if_pos rfl]
      exact hpr
    · intro i x h1 h2 hx
      rw [hget, if_neg (by omega), if_neg (by omega)] at hx
      exact r4 i x h1 h2 hx
    · intro i x h1 h2 hx
      rw [hget, if_neg (by omega)] at hx
      by_cases hi : i = last
      · rw [if_pos hi, hz] at hx
        cases hx
        exact hkz
      · rw [if_neg hi] at hx
        exact r5 i x h1 (by omega) hx


theorem qSortHelper_spec {α κ : Type} [LinearOrder κ] (key : α → κ)
    (lessThan : α → α → Bool) (hlt : ∀ a b, lessThan a b = true ↔ key a < key b) :
    ∀ (fuel : Nat) (a : List α) (start stop : Nat), stop - start ≤ fuel → stop ≤ a.length →
      Within a (qSortHelper lessThan fuel a start stop) start stop ∧
        SortedIn key (qSortHelper lessThan fuel a start stop) start stop := by
  intro fuel
  induction fuel with
  | zero =>
    intro a start stop hf _
    simp only [qSortHelper]
    exact ⟨Within.refl _ _ _, fun i j x y h1 h2 h3 _ _ => by omega⟩
  | succ fuel ih =>
    intro a start stop hf hlen
    unfold qSortHelper
    simp only []
    by_cases h2 : stop - start < 2
    · rw [if_pos h2]
      exact ⟨Within.refl _ _ _, fun i j x y h1 h2 h3 _ _ => by omega⟩
    rw [if_neg h2]
    have hs0 := List.getElem?_eq_getElem (show start < a.length by omega)
    have hl0 := List.getElem?_eq_getElem (show stop - 1 < a.length by omega)
    obtain ⟨w1, o1, x1, y1, hx1, hy1, hk1, _⟩ := swapIfLess_spec key lessThan hlt a
      (stop - 1) start start stop _ _ hl0 hs0 (by omega) (by omega) (le_refl _) (by omega)
      hlen
    generalize swapIfLess lessThan a (stop - 1) start = a1 at w1 o1 hx1 hy1 ⊢
    by_cases h3 : stop - start = 2
    · rw [if_pos h3]
      refine ⟨w1, fun i j x y hi hij hj hx hy => ?_⟩
      have ei : i = start := by omega
      have ej : j = stop - 1 := by omega
      rw [ei, hy1] at hx
      rw [ej, hx1] at hy
      cases hx
      cases hy
      exact hk1
    rw [if_neg h3]
    have hlen1 : stop ≤ a1.length := by rw [w1.1]; exact hlen
    have hpiv : start + (stop - start) / 2 < a1.length := by omega
    have hp1 := List.getElem?_eq_getElem hpiv
    obtain ⟨w2, o2, x2, y2, hx2, hy2, hk2, hv2⟩ := swapIfLess_spec key lessThan hlt a1
      (start + (stop - start) / 2) start start stop _ _ hp1 hy1 (by omega) (by omega)
      (le_refl _) (by omega) hlen1
    have hl2 : (swapIfLess lessThan a1 (start + (stop - start) / 2) start)[stop - 1]? =
        some x1 := by
      rw [o2 (stop - 1) (by omega) (by omega)]
      exact hx1
    have hk12 : key y2 ≤ key x1 := by
      rcases hv2 with ⟨_, e⟩ | ⟨e', e⟩
      · rw [e]
        exact hk1
      · rw [e'] at hk2
        exact le_trans hk2 hk1
    generalize swapIfLess lessThan a1 (start + (stop - start) / 2) start = a2
      at w2 o2 hx2 hy2 hl2 ⊢
    have hlen2 : stop ≤ a2.length := by rw [w2.1]; exact hlen1
    obtain ⟨w3, o3, x3, y3, hx3, hy3, hk3, hv3⟩ := swapIfLess_spec key lessThan hlt a2
      (stop - 1) (start + (stop - start) / 2) start stop x1 x2 hl2 hx2 (by omega) (by omega)
      (by omega) (by omega) hlen2
    have hs3 : (swapIfLess lessThan a2 (stop - 1) (start + (stop - start) / 2))[start]? =
        some y2 := by
      rw [o3 start (by omega) (by omega)]
      exact hy2
    generalize swapIfLess lessThan a2 (stop - 1) (start + (stop - start) / 2) = a3
      at w3 o3 hx3 hy3 hs3 ⊢
    have hw3 : Within a a3 start stop := (w1.trans w2).trans w3
    by_cases h4 : stop - start = 3
    · rw [if_pos h4]
      have hk23 : key y2 ≤ key y3 := by
        rcases hv3 with ⟨_, e⟩ | ⟨_, e⟩
        · rw [e]
          exact hk2
        · rw [e]
          exact hk12
      refine ⟨hw3, fun i j x y hi hij hj hx hy => ?_⟩
      have hpe : start + (stop - start) / 2 = start + 1 := by omega
      rw [hpe] at hy3
      by_cases ei : i = start
      · rw [ei, hs3] at hx
        cases hx
        by_cases ej : j = start + 1
        · rw [ej, hy3] at hy
          cases hy
          exact hk23
        · have ej' : j = stop - 1 := by omega
          rw [ej', hx3] at hy
          cases hy
          exact le_trans hk23 hk3
      · have ei' : i = start + 1 := by omega
        have ej' : j = stop - 1 := by omega
        rw [ei', hy3] at hx
        rw [ej', hx3] at hy
        cases hx
        cases hy
        exact hk3
    rw [if_neg h4]
    have hlen3 : stop ≤ a3.length := by rw [hw3.1]; exact hlen
    obtain ⟨p, q1, q2, q3, q4, q5, q6⟩ := partitionRange_spec key lessThan hlt a3 start
      (start + (stop - start) / 2) (stop - 1) (by omega) (by omega) (by omega)
    have hst : stop - 1 + 1 = stop := by omega
    rw [hst] at q1 q6
    generalize partitionRange lessThan a3 start (start + (stop - start) / 2) (stop - 1) = q
      at q1 q2 q3 q4 q5 q6 ⊢
    have hlenq : stop ≤ q.1.length := by rw [q1.1]; exact hlen3
    obtain ⟨u1, u2⟩ := ih q.1 start q.2 (by omega) (by omega)
    generalize qSortHelper lessThan fuel q.1 start q.2 = a6 at u1 u2 ⊢
    have hlen6 : stop ≤ a6.length := by rw [u1.1]; exact hlenq
    obtain ⟨v1, v2⟩ := ih a6 (q.2 + 1) stop (by omega) hlen6
    generalize qSortHelper lessThan fuel a6 (q.2 + 1) stop = a7 at v1 v2 ⊢
    have f76 : ∀ k, k < q.2 + 1 → a7[k]? = a6[k]? := fun k hk => v1.2.2.1 k (Or.inl hk)
    have f65 : ∀ k, q.2 ≤ k → a6[k]? = q.1[k]? := fun k hk => u1.2.2.1 k (Or.inr hk)
    have hpiv7 : a7[q.2]? = some p := by
      rw [f76 q.2 (by omega), f65 q.2 (le_refl _)]
      exact q4
    have hleft6 : AllIn a6 start q.2 (fun x => key x ≤ key p) := u1.2.2.2 _ q5
    have hright6 : AllIn a6 (q.2 + 1) stop (fun x => key p ≤ key x) := by
      intro i x h1 h2 hx
      rw [f65 i (by omega)] at hx
      exact q6 i x h1 h2 hx
    have hright7 : AllIn a7 (q.2 + 1) stop (fun x => key p ≤ key x) := v1.2.2.2 _ hright6
    refine ⟨((hw3.trans q1).trans (u1.mono (le_refl _) (by omega))).trans
      (v1.mono (by omega) (le_refl _)), fun i j x y hi hij hj hx hy => ?_⟩
    by_cases hjl : j < q.2
    · rw [f76 i (by omega)] at hx
      rw [f76 j (by omega)] at hy
      exact u2 i j x y hi hij hjl hx hy
    · by_cases hil : q.2 < i
      · exact v2 i j x y (by omega) hij hj hx hy
      · have hxp : key x ≤ key p := by
          by_cases hie : i = q.2
          · rw [hie, hpiv7] at hx
            cases hx
            exact le_refl _
          · rw [f76 i (by omega)] at hx
            exact hleft6 i x hi (by omega) hx
        have hpy : key p ≤ key y := by
          by_cases hje : j = q.2
          · rw [hje, hpiv7] at hy
            cases hy
            exact le_refl _
          · exact hright7 j y (by omega) hj hy
        exact le_trans hxp hpy

theorem qSort_perm_of_key {α κ : Type} [LinearOrder κ] (key : α → κ) (lessThan : α → α → Bool)
    (hlt : ∀ a b, lessThan a b = true ↔ key a < key b) (xs : List α) :
    (qSort lessThan xs).Perm xs :=
  (qSortHelper_spec key lessThan hlt xs.length xs 0 xs.length (by omega) (le_refl _)).1.2.1

theorem qSort_sorted_of_key {α κ : Type} [LinearOrder κ] (key : α → κ) (lessThan : α → α → Bool)
    (hlt : ∀ a b, lessThan a b = true ↔ key a < key b) (xs : List α) :
    ((qSort lessThan xs).map key).Sorted (· ≤ ·) := by
  obtain ⟨w, hs⟩ := qSortHelper_spec key lessThan hlt xs.length xs 0 xs.length (by omega)
    (le_refl _)
  change Within xs (qSort lessThan xs) 0 xs.length at w
  change SortedIn key (qSort lessThan xs) 0 xs.length at hs
  unfold List.Sorted
  rw [List.pairwise_map, List.pairwise_iff_getElem]
  intro i j hi hj hij
  exact hs i j _ _ (Nat.zero_le _) hij (by rw [← w.1]; exact hj)
    (List.getElem?_eq_getElem hi) (List.getElem?_eq_getElem hj)

theorem idComparator_iff (a b : QJsonValue) :
    idComparator a b = true ↔ -tweetId a < -tweetId b := by
  simp [idComparator]

theorem qSort_perm (l : List QJsonValue) : (qSort idComparator l).Perm l :=
  qSort_perm_of_key (fun a => -tweetId a) idComparator idComparator_iff l

theorem qSort_sorted (l : List QJsonValue) : (ids (qSort idComparator l)).Sorted (· ≥ ·) := by
  have h := qSort_sorted_of_key (fun a => -tweetId a) idComparator idComparator_iff l
  unfold List.Sorted ids at *
  rw [List.pairwise_map] at h ⊢
  exact h.imp (fun hab => by omega)

theorem ids_eq_of_perm_of_sorted (l m : List QJsonValue) (hp : l.Perm m)
    (hl : (ids l).Sorted (· ≥ ·)) (hm : (ids m).Sorted (· ≥ ·)) : ids l = ids m :=
  List.eq_of_perm_of_sorted (hp.map tweetId) hl hm

instance tweetId_gt_antisymm : IsAntisymm QJsonValue (fun a b => tweetId a > tweetId b) :=
  ⟨fun a b h1 h2 => absurd h1 (by omega)⟩

/-- A list sorted by identity descending in which no identity occurs twice is the only
such arrangement of its posts. -/
theorem eq_of_perm_of_sorted_nodup (l m : List QJsonValue) (hp : l.Perm m)
    (hl : (ids l).Sorted (· ≥ ·)) (hm : (ids m).Sorted (· ≥ ·)) (hnd : (ids m).Nodup) :
    l = m := by
  have e := ids_eq_of_perm_of_sorted l m hp hl hm
  have hm' : m.Sorted (fun a b => tweetId a > tweetId b) := by
    have := List.Sorted.gt_of_ge hm hnd
    unfold List.Sorted ids at this
    rw [List.pairwise_map] at this
    exact this
  have hl' : l.Sorted (fun a b => tweetId a > tweetId b) := by
    have := List.Sorted.gt_of_ge hl (by rw [e]; exact hnd)
    unfold List.Sorted ids at this
    rw [List.pairwise_map] at this
    exact this
  exact List.eq_of_perm_of_sorted hp hl' hm'

theorem mergeLoop_eq (storedList : List QJsonValue) :
    ∀ (batch result : List QJsonValue),
      mergeLoop storedList batch result =
        result ++ batch.filter (fun p => (qBinaryFind idComparator storedList p).isNone) := by
  intro batch
  induction batch with
  | nil => intro result; simp [mergeLoop]
  | cons post rest ih =>
    intro result
    cases h : qBinaryFind idComparator storedList post with
    | none => simp [mergeLoop, h, ih]
    | some i => simp [mergeLoop, h, ih]

theorem mergeTweets_eq (storedJson currentJson : List QJsonValue) :
    mergeTweets storedJson currentJson =
      qSort idComparator (storedJson ++
        currentJson.filter (fun p => (qBinaryFind idComparator storedJson p).isNone)) := by
  unfold mergeTweets
  rw [mergeLoop_eq]

theorem mergeTweets_perm (storedJson currentJson : List QJsonValue) :
    (mergeTweets storedJson currentJson).Perm
      (storedJson ++
        currentJson.filter (fun p => (qBinaryFind idComparator storedJson p).isNone)) := by
  rw [mergeTweets_eq]
  exact qSort_perm _

theorem mergeTweets_sorted (storedJson currentJson : List QJsonValue) :
    (ids (mergeTweets storedJson currentJson)).Sorted (· ≥ ·) :=
  qSort_sorted _

theorem mem_mergeTweets (storedJson currentJson : List QJsonValue) (p : QJsonValue) :
    p ∈ mergeTweets storedJson currentJson ↔
      p ∈ storedJson ∨ (p ∈ currentJson ∧ qBinaryFind idComparator storedJson p = none) := by
  rw [(mergeTweets_perm storedJson currentJson).mem_iff]
  simp [List.mem_filter, Option.isNone_iff_eq_none]

theorem batch_id_mem_mergeTweets (storedJson currentJson : List QJsonValue) (p : QJsonValue)
    (hp : p ∈ currentJson) : tweetId p ∈ ids (mergeTweets storedJson currentJson) := by
  cases h : qBinaryFind idComparator storedJson p with
  | none =>
    exact List.mem_map_of_mem _ ((mem_mergeTweets storedJson currentJson p).2 (Or.inr ⟨hp, h⟩))
  | some i =>
    obtain ⟨x, hx, h1, h2⟩ := qBinaryFind_sound idComparator storedJson p i h
    simp only [idComparator, decide_eq_false_iff_not, not_lt] at h1 h2
    have e : tweetId x = tweetId p := le_antisymm h1 h2
    rw [← e]
    exact List.mem_map_of_mem _ ((mem_mergeTweets storedJson currentJson x).2 (Or.inl hx))

theorem filter_notFound_eq (storedJson currentJson : List QJsonValue)
    (hs : (ids storedJson).Sorted (· ≥ ·)) :
    currentJson.filter (fun p => (qBinaryFind idComparator storedJson p).isNone) =
      currentJson.filter (fun p => decide (tweetId p ∉ ids storedJson)) := by
  apply List.filter_congr
  intro p _
  by_cases h : tweetId p ∈ ids storedJson
  · have hne : qBinaryFind idComparator storedJson p ≠ none := fun hn =>
      (qBinaryFind_none_iff storedJson p hs).1 hn h
    cases hq : qBinaryFind idComparator storedJson p with
    | none => exact absurd hq hne
    | some i => simp [h]
  · rw [(qBinaryFind_none_iff storedJson p hs).2 h]
    simp [h]

/-! ## Claims about `mergeTweets` -/

/-- C2 (as amended): the merge done by `buildTable` on a successful fetch adds to
incoming exactly the batch posts whose identity does not occur in incoming as it stands
at the call (sorted by identity descending); liked, disliked and the current post are
not consulted, and a post repeated in the batch is added once per occurrence. -/
theorem mergeTweets_adds_posts_unknown_to_incoming (s : MainWindow)
    (batch : List QJsonValue) (hs : (ids s.storedTweets).Sorted (· ≥ ·)) :
    (mergeTweets s.storedTweets batch).Perm
      (s.storedTweets ++ batch.filter (fun p => decide (tweetId p ∉ ids s.storedTweets))) := by
  rw [← filter_notFound_eq s.storedTweets batch hs]
  exact mergeTweets_perm _ _

/-- Instance of C2 (as amended): incoming 30, 10 and a batch 40, 30. -/
theorem mergeTweets_adds_posts_unknown_to_incoming_witness :
    (mergeTweets [QJsonValue.Object 30 "c", QJsonValue.Object 10 "a"]
        [QJsonValue.Object 40 "d", QJsonValue.Object 30 "c"]).Perm
      ([QJsonValue.Object 30 "c", QJsonValue.Object 10 "a"] ++
        [QJsonValue.Object 40 "d", QJsonValue.Object 30 "c"].filter
          (fun p => decide (tweetId p ∉
            ids [QJsonValue.Object 30 "c", QJsonValue.Object 10 "a"]))) :=
  mergeTweets_adds_posts_unknown_to_incoming
    { startup with storedTweets := [QJsonValue.Object 30 "c", QJsonValue.Object 10 "a"] }
    [QJsonValue.Object 40 "d", QJsonValue.Object 30 "c"] (by decide)

/-- C2 (as stated) fails: a post whose identity is already in liked is merged into
incoming, and `buildTable` then shows it as the current post again. -/
theorem mergeTweets_keeps_post_already_liked :
    tweetId (QJsonValue.Object 30 "c") ∈
        ids ({ startup with goodTweets := [QJsonValue.Object 30 "c"] } : MainWindow).goodTweets ∧
      QJsonValue.Object 30 "c" ∈
        mergeTweets ({ startup with goodTweets := [QJsonValue.Object 30 "c"] } : MainWindow).storedTweets
          [QJsonValue.Object 30 "c"] ∧
      (buildTable { startup with goodTweets := [QJsonValue.Object 30 "c"] }
          [QJsonValue.Object 30 "c"]).currentTweet = QJsonValue.Object 30 "c" ∧
      (buildTable { startup with goodTweets := [QJsonValue.Object 30 "c"] }
          [QJsonValue.Object 30 "c"]).goodTweets = [QJsonValue.Object 30 "c"] := by
  decide

theorem mergeTweets_twice_eq (storedJson currentJson : List QJsonValue) :
    mergeTweets (mergeTweets storedJson currentJson) currentJson =
      qSort idComparator (mergeTweets storedJson currentJson) := by
  have hs := mergeTweets_sorted storedJson currentJson
  have hnil : currentJson.filter
      (fun p => (qBinaryFind idComparator (mergeTweets storedJson currentJson) p).isNone)
        = [] := by
    rw [List.filter_eq_nil_iff]
    intro p hp hnone
    rw [Option.isNone_iff_eq_none] at hnone
    exact (qBinaryFind_none_iff _ p hs).1 hnone (batch_id_mem_mergeTweets _ _ p hp)
  rw [mergeTweets_eq (mergeTweets storedJson currentJson) currentJson, hnil, List.append_nil]

/-- C3 (as stated) fails: `qSort` is not stable.  With incoming 9, 8 and a batch that
holds two posts of identity 5 with different bodies and the posts 4 and 3, the first
merge gives 9, 8, 5 (b), 5 (a), 4, 3 and merging the batch again gives
9, 8, 5 (a), 5 (b), 4, 3. -/
theorem mergeTweets_twice_swaps_equal_ids :
    mergeTweets [QJsonValue.Object 9 "", QJsonValue.Object 8 ""]
        [QJsonValue.Object 5 "a", QJsonValue.Object 5 "b", QJsonValue.Object 4 "",
          QJsonValue.Object 3 ""] =
        [QJsonValue.Object 9 "", QJsonValue.Object 8 "", QJsonValue.Object 5 "b",
          QJsonValue.Object 5 "a", QJsonValue.Object 4 "", QJsonValue.Object 3 ""] ∧
      mergeTweets
          (mergeTweets [QJsonValue.Object 9 "", QJsonValue.Object 8 ""]
            [QJsonValue.Object 5 "a", QJsonValue.Object 5 "b", QJsonValue.Object 4 "",
              QJsonValue.Object 3 ""])
          [QJsonValue.Object 5 "a", QJsonValue.Object 5 "b", QJsonValue.Object 4 "",
            QJsonValue.Object 3 ""] =
        [QJsonValue.Object 9 "", QJsonValue.Object 8 "", QJsonValue.Object 5 "a",
          QJsonValue.Object 5 "b", QJsonValue.Object 4 "", QJsonValue.Object 3 ""] ∧
      mergeTweets
          (mergeTweets [QJsonValue.Object 9 "", QJsonValue.Object 8 ""]
            [QJsonValue.Object 5 "a", QJsonValue.Object 5 "b", QJsonValue.Object 4 "",
              QJsonValue.Object 3 ""])
          [QJsonValue.Object 5 "a", QJsonValue.Object 5 "b", QJsonValue.Object 4 "",
            QJsonValue.Object 3 ""] ≠
        mergeTweets [QJsonValue.Object 9 "", QJsonValue.Object 8 ""]
          [QJsonValue.Object 5 "a", QJsonValue.Object 5 "b", QJsonValue.Object 4 "",
            QJsonValue.Object 3 ""] := by
  decide

/-- C3 (as amended): merging the same batch a second time keeps the posts and the
sequence of their identities: `mergeTweets (mergeTweets S B) B` is a permutation of
`mergeTweets S B` with the same identities in the same order, for every incoming list
`S` (sorted or not) and every batch `B`; the two lists are equal when no identity
occurs twice in `mergeTweets S B`. -/
theorem mergeTweets_idempotent_up_to_equal_ids (storedJson currentJson : List QJsonValue) :
    ids (mergeTweets (mergeTweets storedJson currentJson) currentJson) =
        ids (mergeTweets storedJson currentJson) ∧
      (mergeTweets (mergeTweets storedJson currentJson) currentJson).Perm
        (mergeTweets storedJson currentJson) ∧
      ((ids (mergeTweets storedJson currentJson)).Nodup →
        mergeTweets (mergeTweets storedJson currentJson) currentJson =
          mergeTweets storedJson currentJson) := by
  have hs := mergeTweets_sorted storedJson currentJson
  have hs2 := mergeTweets_sorted (mergeTweets storedJson currentJson) currentJson
  have hp : (mergeTweets (mergeTweets storedJson currentJson) currentJson).Perm
      (mergeTweets storedJson currentJson) := by
    rw [mergeTweets_twice_eq]
    exact qSort_perm _
  exact ⟨ids_eq_of_perm_of_sorted _ _ hp hs2 hs, hp,
    fun hnd => eq_of_perm_of_sorted_nodup _ _ hp hs2 hs hnd⟩

/-- Instance of C3 (as amended): incoming 30, 10 and a batch 40, 30; the merged list
repeats no identity and a second merge returns it. -/
theorem mergeTweets_idempotent_up_to_equal_ids_witness :
    (ids (mergeTweets [QJsonValue.Object 30 "c", QJsonValue.Object 10 "a"]
        [QJsonValue.Object 40 "d", QJsonValue.Object 30 "c"])).Nodup ∧
      mergeTweets
          (mergeTweets [QJsonValue.Object 30 "c", QJsonValue.Object 10 "a"]
            [QJsonValue.Object 40 "d", QJsonValue.Object 30 "c"])
          [QJsonValue.Object 40 "d", QJsonValue.Object 30 "c"] =
        mergeTweets [QJsonValue.Object 30 "c", QJsonValue.Object 10 "a"]
          [QJsonValue.Object 40 "d", QJsonValue.Object 30 "c"] :=
  ⟨by decide,
    (mergeTweets_idempotent_up_to_equal_ids
      [QJsonValue.Object 30 "c", QJsonValue.Object 10 "a"]
      [QJsonValue.Object 40 "d", QJsonValue.Object 30 "c"]).2.2 (by decide)⟩

/-- C4: the result of `mergeTweets` is sorted by identity descending, keeps every post
of the incoming list (with its multiplicity) and holds a post for every identity of the
batch; from an empty incoming list and a batch with ids 30, 20, 10 it has the ids
30, 20, 10. -/
theorem mergeTweets_sorted_and_complete (storedJson currentJson : List QJsonValue) :
    (ids (mergeTweets storedJson currentJson)).Sorted (· ≥ ·) ∧
      (∀ p ∈ storedJson, p ∈ mergeTweets storedJson currentJson) ∧
      storedJson.Subperm (mergeTweets storedJson currentJson) ∧
      (∀ p ∈ currentJson, tweetId p ∈ ids (mergeTweets storedJson currentJson)) ∧
      (∀ a b c : String,
        ids (mergeTweets [] [QJsonValue.Object 30 a, QJsonValue.Object 20 b,
          QJsonValue.Object 10 c]) = [30, 20, 10]) := by
  refine ⟨mergeTweets_sorted _ _, ?_, ?_, ?_, ?_⟩
  · intro p hp
    exact (mem_mergeTweets _ _ p).2 (Or.inl hp)
  · exact (List.sublist_append_left _ _).subperm.trans (mergeTweets_perm _ _).symm.subperm
  · intro p hp
    exact batch_id_mem_mergeTweets _ _ p hp
  · intro a b c
    have hp : (mergeTweets [] [QJsonValue.Object 30 a, QJsonValue.Object 20 b,
        QJsonValue.Object 10 c]).Perm
        [QJsonValue.Object 30 a, QJsonValue.Object 20 b, QJsonValue.Object 10 c] := by
      have h := mergeTweets_perm [] [QJsonValue.Object 30 a, QJsonValue.Object 20 b,
        QJsonValue.Object 10 c]
      simpa [qBinaryFind, qLowerBound, qLowerBoundLoop] using h
    have hsorted : (ids [QJsonValue.Object 30 a, QJsonValue.Object 20 b,
        QJsonValue.Object 10 c]).Sorted (· ≥ ·) := by
      change ([30, 20, 10] : List Int).Sorted (· ≥ ·)
      decide
    exact ids_eq_of_perm_of_sorted _ _ hp (mergeTweets_sorted _ _) hsorted

/-! ## Claims about `mostRecentId` and classification -/

/-- C5 fails on the code: `calculateMostRecentId` recomputes `mostRecentId` from the
current post and the front of each array and keeps nothing of the previous value.
After the first run, liking post 30 and then post 20 takes `mostRecentId` from 30
to 20. -/
theorem calculateMostRecentId_decreases :
    firstRun.mostRecentId = 30 ∧
      (pickNextTweet (like firstRun)).mostRecentId = 30 ∧
      (like (pickNextTweet (like firstRun))).mostRecentId = 30 ∧
      (pickNextTweet (like (pickNextTweet (like firstRun)))).mostRecentId = 20 ∧
      (calculateMostRecentId (like (pickNextTweet (like firstRun)))).mostRecentId <
        (like (pickNextTweet (like firstRun))).mostRecentId := by
  decide

/-- C6: with a post on the card, in every state, `like` prepends it to liked and leaves
disliked, incoming and the card as they are, and `dislike` prepends it to disliked and
leaves liked, incoming and the card as they are; when incoming is non-empty and the
table shows a row, the `pickNextTweet` that follows puts the head of incoming on the
card and removes it from incoming. -/
theorem like_dislike_then_pickNextTweet (s : MainWindow) (id : Int) (text : String)
    (hcur : s.currentTweet = QJsonValue.Object id text) :
    ((like s).goodTweets = QJsonValue.Object id text :: s.goodTweets ∧
        (like s).badTweets = s.badTweets ∧
        (like s).storedTweets = s.storedTweets ∧
        (like s).currentTweet = s.currentTweet) ∧
      ((dislike s).badTweets = QJsonValue.Object id text :: s.badTweets ∧
        (dislike s).goodTweets = s.goodTweets ∧
        (dislike s).storedTweets = s.storedTweets ∧
        (dislike s).currentTweet = s.currentTweet) ∧
      ∀ (head : QJsonValue) (rest : List QJsonValue), s.storedTweets = head :: rest →
        0 < s.columnCount → 0 < rowCount s →
        ((pickNextTweet (like s)).currentTweet = head ∧
          (pickNextTweet (like s)).storedTweets = rest ∧
          (pickNextTweet (like s)).goodTweets = QJsonValue.Object id text :: s.goodTweets ∧
          (pickNextTweet (like s)).badTweets = s.badTweets) ∧
        ((pickNextTweet (dislike s)).currentTweet = head ∧
          (pickNextTweet (dislike s)).storedTweets = rest ∧
          (pickNextTweet (dislike s)).badTweets =
            QJsonValue.Object id text :: s.badTweets ∧
          (pickNextTweet (dislike s)).goodTweets = s.goodTweets) := by
  refine ⟨?_, ?_, ?_⟩
  · simp [like, stopMotion, push_front, hcur, QJsonValue.stored]
  · simp [dislike, stopMotion, push_front, hcur, QJsonValue.stored]
  · intro head rest hin hcol hrow
    have hrow' : 0 < s.tableRows.length := hrow
    constructor
    · simp [pickNextTweet, like, stopMotion, push_front, hcur, hin, hcol, hrow', rowCount,
        QJsonValue.stored, calculateMostRecentId, first, pop_front]
    · simp [pickNextTweet, dislike, stopMotion, push_front, hcur, hin, hcol, hrow', rowCount,
        QJsonValue.stored, calculateMostRecentId, first, pop_front]

/-- Instance of C6: post 30 on the card, incoming 20, 10; `like` and then
`pickNextTweet` give liked 30, post 20 on the card and incoming 10.  On the last card
(post 30 alone, incoming empty, no row) `like` prepends post 30 to liked all the
same. -/
theorem like_dislike_then_pickNextTweet_witness :
    (firstRun.currentTweet = QJsonValue.Object 30 "c" ∧
        ids firstRun.storedTweets = [20, 10] ∧
        (pickNextTweet (like firstRun)).goodTweets = [QJsonValue.Object 30 "c"] ∧
        (pickNextTweet (like firstRun)).currentTweet = QJsonValue.Object 20 "b" ∧
        (pickNextTweet (like firstRun)).storedTweets = [QJsonValue.Object 10 "a"]) ∧
      ((gotUserTimeline (buildTable startup [])
          (QNetworkReply.NoError [QJsonValue.Object 30 "c"])).storedTweets = [] ∧
        (like (gotUserTimeline (buildTable startup [])
          (QNetworkReply.NoError [QJsonValue.Object 30 "c"]))).goodTweets =
            QJsonValue.Object 30 "c" ::
              (gotUserTimeline (buildTable startup [])
                (QNetworkReply.NoError [QJsonValue.Object 30 "c"])).goodTweets) :=
  have h := (like_dislike_then_pickNextTweet firstRun 30 "c" (by decide)).2.2
    (QJsonValue.Object 20 "b") [QJsonValue.Object 10 "a"] (by decide) (by decide) (by decide)
  ⟨⟨by decide, by decide, h.1.2.2.1, h.1.1, h.1.2.1⟩, by decide,
    (like_dislike_then_pickNextTweet
      (gotUserTimeline (buildTable startup [])
        (QNetworkReply.NoError [QJsonValue.Object 30 "c"])) 30 "c" (by decide)).1.1⟩

theorem like_iterate (n : Nat) : ∀ s : MainWindow,
    (like^[n] s).goodTweets = List.replicate n s.currentTweet.stored ++ s.goodTweets ∧
      (like^[n] s).badTweets = s.badTweets ∧
      (like^[n] s).currentTweet = s.currentTweet ∧
      (like^[n] s).singleShots = s.singleShots + n := by
  induction n with
  | zero => intro s; simp
  | succ n ih =>
    intro s
    rw [Function.iterate_succ_apply]
    obtain ⟨h1, h2, h3, h4⟩ := ih (like s)
    rw [h1, h2, h3, h4]
    simp [like, stopMotion, push_front, List.replicate_succ']
    omega

theorem dislike_iterate (n : Nat) : ∀ s : MainWindow,
    (dislike^[n] s).badTweets = List.replicate n s.currentTweet.stored ++ s.badTweets ∧
      (dislike^[n] s).goodTweets = s.goodTweets ∧
      (dislike^[n] s).currentTweet = s.currentTweet ∧
      (dislike^[n] s).singleShots = s.singleShots + n := by
  induction n with
  | zero => intro s; simp
  | succ n ih =>
    intro s
    rw [Function.iterate_succ_apply]
    obtain ⟨h1, h2, h3, h4⟩ := ih (dislike s)
    rw [h1, h2, h3, h4]
    simp [dislike, stopMotion, push_front, List.replicate_succ']
    omega

/-- C7 (as stated) fails: nothing in `like`, `dislike` or the pointer handling looks at
a dismissal in progress.  Two clicks on the like button before `pickNextTweet` has run
put post 30 into liked twice; a click on like followed by a click on dislike puts it
into both arrays; and a pointer move that keeps the card beyond the like limit after
the move that crossed it classifies the post again. -/
theorem second_classification_not_ignored :
    (like (like firstRun)).goodTweets =
        [QJsonValue.Object 30 "c", QJsonValue.Object 30 "c"] ∧
      (like (like firstRun)).singleShots = 2 ∧
      ((dislike (like firstRun)).goodTweets = [QJsonValue.Object 30 "c"] ∧
        (dislike (like firstRun)).badTweets = [QJsonValue.Object 30 "c"]) ∧
      (eventFilter dragged (QEvent.MouseMove true ⟨310, 0⟩ 110)).goodTweets =
        [QJsonValue.Object 30 "c"] ∧
      (eventFilter (eventFilter dragged (QEvent.MouseMove true ⟨310, 0⟩ 110))
        (QEvent.MouseMove true ⟨320, 0⟩ 120)).goodTweets =
        [QJsonValue.Object 30 "c", QJsonValue.Object 30 "c"] := by
  decide

/-- C7 (as amended): `like` and `dislike` are not gated by a dismissal in progress.
Each call, also one made before the `pickNextTweet` of an earlier call has run,
prepends the post on the card to its array and schedules one more `pickNextTweet`;
`n` calls add the post `n` times.  Neither call ends a drag (`mouseDown` is kept), and
a pointer move during a drag classifies as `scrollBy` does for the new position,
whatever has been scheduled. -/
theorem every_classification_call_prepends (s : MainWindow) (n : Nat) (globalPos : QPoint)
    (elapsed : Int) :
    ((like^[n] s).goodTweets = List.replicate n s.currentTweet.stored ++ s.goodTweets ∧
        (like^[n] s).singleShots = s.singleShots + n) ∧
      ((dislike^[n] s).badTweets = List.replicate n s.currentTweet.stored ++ s.badTweets ∧
        (dislike^[n] s).singleShots = s.singleShots + n) ∧
      ((like s).mouseDown = s.mouseDown ∧ (dislike s).mouseDown = s.mouseDown) ∧
      ((eventFilter { s with mouseDown := true }
          (QEvent.MouseMove true globalPos elapsed)).goodTweets =
          (scrollBy { s with mouseDown := true }
            ⟨globalPos.x - s.lastMousePos.x, 0⟩).goodTweets ∧
        (eventFilter { s with mouseDown := true }
          (QEvent.MouseMove true globalPos elapsed)).badTweets =
          (scrollBy { s with mouseDown := true }
            ⟨globalPos.x - s.lastMousePos.x, 0⟩).badTweets) := by
  refine ⟨⟨(like_iterate n s).1, (like_iterate n s).2.2.2⟩,
    ⟨(dislike_iterate n s).1, (dislike_iterate n s).2.2.2⟩, ⟨rfl, rfl⟩, ?_, ?_⟩
  · simp only [eventFilter, Bool.and_self, if_true]
    split <;> rfl
  · simp only [eventFilter, Bool.and_self, if_true]
    split <;> rfl

/-! ## Claims about pointer input -/

theorem like_ne_self (s : MainWindow) : like s ≠ s := by
  intro h
  have h1 : (like s).singleShots = s.singleShots := by rw [h]
  simp [like, stopMotion] at h1

theorem dislike_ne_self (s : MainWindow) : dislike s ≠ s := by
  intro h
  have h1 : (dislike s).singleShots = s.singleShots := by rw [h]
  simp [dislike, stopMotion] at h1

theorem like_ne_dislike (s : MainWindow) : like s ≠ dislike s := by
  intro h
  have h1 : (like s).goodTweets.length = (dislike s).goodTweets.length := by rw [h]
  simp [like, dislike, stopMotion, push_front] at h1

theorem scrollByMove_pos (s : MainWindow) (offset : QPoint) :
    (scrollByMove s offset).tweetFramePos.x = offset.x + s.lastTweetFramePos.x ∧
      (scrollByMove s offset).tweetFrameWidth = s.tweetFrameWidth := by
  simp [scrollByMove]

/-- C8 (as amended): with W the width of the card and x the horizontal position of the
card after the move of `scrollBy` (its `pos().x()`, which is the offset from rest only
when the rest position has x = 0), `scrollBy` calls `like` exactly when x > W, calls
`dislike` exactly when x < -W, and calls neither exactly when -W <= x <= W. -/
theorem scrollBy_classifies_by_position (s : MainWindow) (offset : QPoint)
    (hw : 0 ≤ s.tweetFrameWidth) :
    (scrollBy s offset = like (scrollByMove s offset) ↔
        offset.x + s.lastTweetFramePos.x > s.tweetFrameWidth) ∧
      (scrollBy s offset = dislike (scrollByMove s offset) ↔
        offset.x + s.lastTweetFramePos.x < -s.tweetFrameWidth) ∧
      (scrollBy s offset = scrollByMove s offset ↔
        (-s.tweetFrameWidth ≤ offset.x + s.lastTweetFramePos.x ∧
          offset.x + s.lastTweetFramePos.x ≤ s.tweetFrameWidth)) := by
  obtain ⟨hx, hwd⟩ := scrollByMove_pos s offset
  have hl := like_ne_self (scrollByMove s offset)
  have hd := dislike_ne_self (scrollByMove s offset)
  have hld := like_ne_dislike (scrollByMove s offset)
  have key : scrollBy s offset =
      if offset.x + s.lastTweetFramePos.x < -s.tweetFrameWidth then
        dislike (scrollByMove s offset)
      else if offset.x + s.lastTweetFramePos.x > s.tweetFrameWidth then
        like (scrollByMove s offset)
      else scrollByMove s offset := by
    unfold scrollBy
    simp only [likeLimit, dislikeLimit, hx, hwd]
  rw [key]
  by_cases h1 : offset.x + s.lastTweetFramePos.x < -s.tweetFrameWidth
  · rw [if_pos h1]
    exact ⟨⟨fun h => absurd h.symm hld, fun h => by omega⟩, ⟨fun _ => h1, fun _ => rfl⟩,
      ⟨fun h => absurd h hd, fun h => by omega⟩⟩
  · rw [if_neg h1]
    by_cases h2 : offset.x + s.lastTweetFramePos.x > s.tweetFrameWidth
    · rw [if_pos h2]
      exact ⟨⟨fun _ => h2, fun _ => rfl⟩, ⟨fun h => absurd h hld, fun h => absurd h h1⟩,
        ⟨fun h => absurd h hl, fun h => by omega⟩⟩
    · rw [if_neg h2]
      exact ⟨⟨fun h => absurd h.symm hl, fun h => absurd h h2⟩,
        ⟨fun h => absurd h.symm hd, fun h => absurd h h1⟩, ⟨fun _ => by omega, fun _ => rfl⟩⟩

/-- The state after the release of S2: pointer at x = 310, 110 ms after the press. -/
theorem released_is_coasting :
    (eventFilter dragged (QEvent.MouseButtonRelease true true ⟨310, 0⟩ 110 110)).velocity =
        initialVector 310 110 ∧
      (eventFilter dragged
        (QEvent.MouseButtonRelease true true ⟨310, 0⟩ 110 110)).mouseMoveTimerId = 1 :=
  ⟨rfl, rfl⟩

theorem initialVector_S2 :
    exceedsSqrt2 (initialVector 310 110) = true ∧
      (initialVector 310 110).toPoint = ⟨113, 0⟩ := by
  constructor
  · norm_num [exceedsSqrt2, initialVector, TimeInterval]
  · norm_num [QPointF.toPoint, initialVector, TimeInterval, qRound, truncToInt]
    decide

theorem timerEvent_S2 :
    timerEvent (eventFilter dragged (QEvent.MouseButtonRelease true true ⟨310, 0⟩ 110 110)) 1 =
      { scrollBy (eventFilter dragged (QEvent.MouseButtonRelease true true ⟨310, 0⟩ 110 110))
          ⟨113, 0⟩ with
        velocity :=
          ⟨(scrollBy (eventFilter dragged
              (QEvent.MouseButtonRelease true true ⟨310, 0⟩ 110 110)) ⟨113, 0⟩).velocity.x *
              Friction,
            (scrollBy (eventFilter dragged
              (QEvent.MouseButtonRelease true true ⟨310, 0⟩ 110 110)) ⟨113, 0⟩).velocity.y *
              Friction⟩ } := by
  unfold timerEvent
  rw [released_is_coasting.2, if_pos rfl, released_is_coasting.1, if_pos initialVector_S2.1,
    initialVector_S2.2]

/-- Instance of C8 (S2): W = 300, rest x = 0, card at 220; the coasting tick with
velocity 1000 * 310 / 110 / 25, rounded to 113, moves the card to 333 and calls
`like`. -/
theorem scrollBy_classifies_by_position_witness :
    (0 : Int) ≤ 300 ∧
      (eventFilter dragged
        (QEvent.MouseButtonRelease true true ⟨310, 0⟩ 110 110)).originalTweetFramePos.x = 0 ∧
      (eventFilter dragged
        (QEvent.MouseButtonRelease true true ⟨310, 0⟩ 110 110)).tweetFramePos.x = 220 ∧
      (timerEvent (eventFilter dragged
        (QEvent.MouseButtonRelease true true ⟨310, 0⟩ 110 110)) 1).tweetFramePos.x = 333 ∧
      (timerEvent (eventFilter dragged
        (QEvent.MouseButtonRelease true true ⟨310, 0⟩ 110 110)) 1).goodTweets =
          [QJsonValue.Object 30 "c"] ∧
      scrollBy (eventFilter dragged (QEvent.MouseButtonRelease true true ⟨310, 0⟩ 110 110))
          ⟨113, 0⟩ =
        like (scrollByMove (eventFilter dragged
          (QEvent.MouseButtonRelease true true ⟨310, 0⟩ 110 110)) ⟨113, 0⟩) :=
  ⟨by decide, by decide, by decide, by rw [timerEvent_S2]; decide,
    by rw [timerEvent_S2]; decide,
    (scrollBy_classifies_by_position
      (eventFilter dragged (QEvent.MouseButtonRelease true true ⟨310, 0⟩ 110 110)) ⟨113, 0⟩
      (by decide)).1.2 (by decide)⟩

/-- C8 (as stated) fails when the rest position of the card is not at x = 0: with
W = 300 and rest x = 10, a move of 5 pixels from position 300 takes the card to
position 305, that is to offset 295 from rest, which is within W, and `like` is
called. -/
theorem scrollBy_likes_within_offset_limit :
    (scrollByMove
        { firstRun with
          originalTweetFramePos := ⟨10, 0⟩
          tweetFramePos := ⟨300, 0⟩
          lastTweetFramePos := ⟨300, 0⟩ } ⟨5, 0⟩).tweetFramePos.x - 10 = 295 ∧
      (295 : Int) ≤ 300 ∧
      scrollBy
          { firstRun with
            originalTweetFramePos := ⟨10, 0⟩
            tweetFramePos := ⟨300, 0⟩
            lastTweetFramePos := ⟨300, 0⟩ } ⟨5, 0⟩ =
        like (scrollByMove
          { firstRun with
            originalTweetFramePos := ⟨10, 0⟩
            tweetFramePos := ⟨300, 0⟩
            lastTweetFramePos := ⟨300, 0⟩ } ⟨5, 0⟩) ∧
      (scrollBy
          { firstRun with
            originalTweetFramePos := ⟨10, 0⟩
            tweetFramePos := ⟨300, 0⟩
            lastTweetFramePos := ⟨300, 0⟩ } ⟨5, 0⟩).goodTweets =
        [QJsonValue.Object 30 "c"] := by
  refine ⟨by decide, by decide, ?_, by decide⟩
  rfl

/-- C9 (as amended): on a left-button release on the card with five samples in the
window (at least five moves since the press), a gap between the newest sample and the
release below 100 ms starts coasting, `startMotion` with the velocity
`1000 * dx / dt / 25` on the horizontal axis and the timer running, and a gap of
100 ms or more returns the card, `unfloatTweet` towards the rest position.  Here `dt`
is the time from the oldest sample to the release and the velocity is stated for
`dt ≠ 0`. -/
theorem release_with_five_samples (s : MainWindow) (globalPos : QPoint)
    (elapsed elapsed2 : Int) (oldest newest : KineticData)
    (hold : s.kineticData.head? = some oldest)
    (hnew : s.kineticData.getLast? = some newest)
    (hfive : s.kineticData.length = 5) :
    (elapsed - newest.t < 100 →
        eventFilter s (QEvent.MouseButtonRelease true true globalPos elapsed elapsed2) =
            startMotion { s with mouseDown := false }
              (initialVector (globalPos.x - oldest.p.x) (elapsed2 - oldest.t)) ∧
          (elapsed2 - oldest.t ≠ 0 →
            (eventFilter s
              (QEvent.MouseButtonRelease true true globalPos elapsed elapsed2)).velocity.x =
                1000 * ((globalPos.x - oldest.p.x : Int) : ℚ) /
                  ((elapsed2 - oldest.t : Int) : ℚ) / 25 ∧
            (eventFilter s
              (QEvent.MouseButtonRelease true true globalPos elapsed elapsed2)).velocity.y =
                0) ∧
          (eventFilter s
            (QEvent.MouseButtonRelease true true globalPos elapsed elapsed2)).mouseMoveTimerId
              ≠ 0 ∧
          (eventFilter s
            (QEvent.MouseButtonRelease true true globalPos elapsed elapsed2)).unfloatAnimation =
              s.unfloatAnimation) ∧
      (100 ≤ elapsed - newest.t →
        eventFilter s (QEvent.MouseButtonRelease true true globalPos elapsed elapsed2) =
            unfloatTweet { s with mouseDown := false } ∧
          (eventFilter s
            (QEvent.MouseButtonRelease true true globalPos elapsed elapsed2)).unfloatAnimation =
              ⟨s.tweetFramePos, s.originalTweetFramePos, s.unfloatAnimation.starts + 1⟩ ∧
          (eventFilter s
            (QEvent.MouseButtonRelease true true globalPos elapsed elapsed2)).mouseMoveTimerId =
              s.mouseMoveTimerId ∧
          (eventFilter s
            (QEvent.MouseButtonRelease true true globalPos elapsed elapsed2)).velocity =
              s.velocity) := by
  constructor
  · intro hgap
    have e : eventFilter s (QEvent.MouseButtonRelease true true globalPos elapsed elapsed2) =
        startMotion { s with mouseDown := false }
          (initialVector (globalPos.x - oldest.p.x) (elapsed2 - oldest.t)) := by
      simp [eventFilter, hold, hnew, hfive, MaxKineticDataSamples, hgap]
    rw [e]
    refine ⟨rfl, ?_, ?_, ?_⟩
    · intro _
      constructor
      · simp [startMotion, initialVector, TimeInterval]
      · simp [startMotion, initialVector, TimeInterval]
    · simp only [startMotion, startTimer]
      split <;> omega
    · simp [startMotion]
  · intro hgap
    have e : eventFilter s (QEvent.MouseButtonRelease true true globalPos elapsed elapsed2) =
        unfloatTweet { s with mouseDown := false } := by
      have hn : ¬ elapsed - newest.t < 100 := by omega
      simp [eventFilter, hold, hnew, hfive, MaxKineticDataSamples, hn]
    rw [e]
    exact ⟨rfl, rfl, rfl, rfl⟩

/-- Instance of C9 (S3): five samples, the newest at t = 100; a release at t = 400
returns the card and classifies nothing, a release at t = 110 starts coasting. -/
theorem release_with_five_samples_witness :
    dragged.kineticData.length = 5 ∧
      (100 : Int) ≤ 400 - 100 ∧
      eventFilter dragged (QEvent.MouseButtonRelease true true ⟨310, 0⟩ 400 400) =
        unfloatTweet { dragged with mouseDown := false } ∧
      (eventFilter dragged (QEvent.MouseButtonRelease true true ⟨310, 0⟩ 400 400)).goodTweets =
        dragged.goodTweets ∧
      (eventFilter dragged (QEvent.MouseButtonRelease true true ⟨310, 0⟩ 400 400)).badTweets =
        dragged.badTweets ∧
      (eventFilter dragged (QEvent.MouseButtonRelease true true ⟨310, 0⟩ 400 400)).singleShots =
        0 ∧
      eventFilter dragged (QEvent.MouseButtonRelease true true ⟨310, 0⟩ 110 110) =
        startMotion { dragged with mouseDown := false } (initialVector (310 - 0) (110 - 0)) :=
  have h := release_with_five_samples dragged ⟨310, 0⟩ 400 400 ⟨⟨0, 0⟩, 0⟩ ⟨⟨220, 0⟩, 100⟩
    (by decide) (by decide) (by decide)
  have h2 := release_with_five_samples dragged ⟨310, 0⟩ 110 110 ⟨⟨0, 0⟩, 0⟩ ⟨⟨220, 0⟩, 100⟩
    (by decide) (by decide) (by decide)
  ⟨by decide, by decide, (h.2 (by decide)).1, by decide, by decide, by decide,
    (h2.1 (by decide)).1⟩

/-- C9 (as stated) fails at a gap of exactly 100 ms: with five samples, the newest at
t = 100, a release at t = 200 returns the card (`unfloatTweet` runs, no timer is
started) where the claim has it coast.  With two samples only, a release starts
neither: the card stays where it was dropped. -/
theorem release_at_gap_100_returns :
    dragged.kineticData.length = 5 ∧
      dragged.kineticData.getLast? = some ⟨⟨220, 0⟩, 100⟩ ∧
      (200 : Int) - 100 ≤ 100 ∧
      (eventFilter dragged
        (QEvent.MouseButtonRelease true true ⟨310, 0⟩ 200 200)).mouseMoveTimerId = 0 ∧
      (eventFilter dragged
        (QEvent.MouseButtonRelease true true ⟨310, 0⟩ 200 200)).unfloatAnimation.starts =
          dragged.unfloatAnimation.starts + 1 ∧
      eventFilter dragged (QEvent.MouseButtonRelease true true ⟨310, 0⟩ 200 200) =
        unfloatTweet { dragged with mouseDown := false } ∧
      draggedBriefly.kineticData.length = 2 ∧
      eventFilter draggedBriefly (QEvent.MouseButtonRelease true true ⟨40, 0⟩ 400 400) =
        { draggedBriefly with mouseDown := false } ∧
      (eventFilter draggedBriefly
        (QEvent.MouseButtonRelease true true ⟨40, 0⟩ 400 400)).unfloatAnimation.starts = 0 ∧
      (eventFilter draggedBriefly
        (QEvent.MouseButtonRelease true true ⟨40, 0⟩ 400 400)).tweetFramePos.x = 40 := by
  refine ⟨by decide, by decide, by decide, by decide, by decide, rfl, by decide, rfl,
    by decide, by decide⟩

/-! ## A successful fetch -/

theorem pickNextTweet_pops (s : MainWindow) (hcol : 0 < s.columnCount)
    (hrow : 0 < rowCount s) :
    (pickNextTweet s).currentTweet = first s.storedTweets ∧
      (pickNextTweet s).storedTweets = pop_front s.storedTweets ∧
      (pickNextTweet s).goodTweets = s.goodTweets ∧
      (pickNextTweet s).badTweets = s.badTweets ∧
      (pickNextTweet s).tableRows = s.tableRows.eraseIdx 0 ∧
      (pickNextTweet s).columnCount = s.columnCount := by
  have hrow' : 0 < s.tableRows.length := hrow
  simp [pickNextTweet, stopMotion, calculateMostRecentId, rowCount, hcol, hrow']

theorem pickNextTweet_skips (s : MainWindow) (h : ¬ (0 < s.columnCount ∧ 0 < rowCount s)) :
    (pickNextTweet s).currentTweet = s.currentTweet ∧
      (pickNextTweet s).storedTweets = s.storedTweets ∧
      (pickNextTweet s).goodTweets = s.goodTweets ∧
      (pickNextTweet s).badTweets = s.badTweets ∧
      (pickNextTweet s).tableRows = s.tableRows ∧
      (pickNextTweet s).columnCount = s.columnCount := by
  have h' : ¬ (0 < s.columnCount ∧ 0 < s.tableRows.length) := h
  unfold pickNextTweet
  simp only [stopMotion, rowCount]
  rw [if_neg h']
  exact ⟨rfl, rfl, rfl, rfl, rfl, rfl⟩

theorem buildTable_eq (s : MainWindow) (batch : List QJsonValue) :
    buildTable s batch =
      if (mergedWith s.storedTweets batch).isEmpty && !s.tableBuildCalled then
        getUserTimeline
          (calculateMostRecentId { s with storedTweets := mergedWith s.storedTweets batch })
      else
        pickNextTweet
          { calculateMostRecentId { s with storedTweets := mergedWith s.storedTweets batch } with
            tableBuildCalled := true
            tableRows := ids (mergedWith s.storedTweets batch) } := by
  unfold buildTable mergedWith
  cases batch.isEmpty <;> rfl

theorem buildTable_picks (s : MainWindow) (batch : List QJsonValue)
    (hne : mergedWith s.storedTweets batch ≠ []) (hcol : 0 < s.columnCount) :
    (buildTable s batch).currentTweet = first (mergedWith s.storedTweets batch) ∧
      (buildTable s batch).storedTweets = pop_front (mergedWith s.storedTweets batch) ∧
      (buildTable s batch).goodTweets = s.goodTweets ∧
      (buildTable s batch).badTweets = s.badTweets ∧
      (buildTable s batch).tableRows = (ids (mergedWith s.storedTweets batch)).eraseIdx 0 ∧
      (buildTable s batch).columnCount = s.columnCount := by
  rw [buildTable_eq]
  have hemp : (mergedWith s.storedTweets batch).isEmpty = false := by
    cases h : mergedWith s.storedTweets batch with
    | nil => exact absurd h hne
    | cons a l => rfl
  rw [hemp, Bool.false_and, if_neg (by simp)]
  have hrow : 0 < rowCount
      { calculateMostRecentId { s with storedTweets := mergedWith s.storedTweets batch } with
        tableBuildCalled := true
        tableRows := ids (mergedWith s.storedTweets batch) } := by
    cases h : mergedWith s.storedTweets batch with
    | nil => exact absurd h hne
    | cons a l => simp [rowCount, ids]
  exact pickNextTweet_pops _ hcol hrow

/-- What a successful fetch leaves when nothing is picked: either nothing is known at
all and the timeline is requested again, or the table has no column. -/
theorem buildTable_no_pick (s : MainWindow) (batch : List QJsonValue)
    (h : mergedWith s.storedTweets batch = [] ∨ s.columnCount = 0) :
    (buildTable s batch).currentTweet = s.currentTweet ∧
      (buildTable s batch).storedTweets = mergedWith s.storedTweets batch ∧
      (buildTable s batch).goodTweets = s.goodTweets ∧
      (buildTable s batch).badTweets = s.badTweets ∧
      ((buildTable s batch).tableRows = s.tableRows ∧ mergedWith s.storedTweets batch = [] ∨
        (buildTable s batch).tableRows = ids (mergedWith s.storedTweets batch)) := by
  rw [buildTable_eq]
  by_cases hc : ((mergedWith s.storedTweets batch).isEmpty && !s.tableBuildCalled) = true
  · rw [if_pos hc]
    have hemp : mergedWith s.storedTweets batch = [] := by
      simp only [Bool.and_eq_true, List.isEmpty_iff] at hc
      exact hc.1
    exact ⟨rfl, rfl, rfl, rfl, Or.inl ⟨rfl, hemp⟩⟩
  · rw [if_neg hc]
    have hskip : ¬ (0 <
        ({ calculateMostRecentId { s with storedTweets := mergedWith s.storedTweets batch } with
          tableBuildCalled := true
          tableRows := ids (mergedWith s.storedTweets batch) } : MainWindow).columnCount ∧
        0 < rowCount
          { calculateMostRecentId { s with storedTweets := mergedWith s.storedTweets batch } with
            tableBuildCalled := true
            tableRows := ids (mergedWith s.storedTweets batch) }) := by
      rcases h with h | h
      · simp [rowCount, h, ids]
      · intro hcon
        have : 0 < s.columnCount := hcon.1
        omega
    obtain ⟨h1, h2, h3, h4, h5, _⟩ := pickNextTweet_skips _ hskip
    exact ⟨h1, h2, h3, h4, Or.inr h5⟩

theorem isNull_iff (v : QJsonValue) : v.isNull = true ↔ v = QJsonValue.Null := by
  cases v <;> simp [QJsonValue.isNull]

theorem gotUserTimeline_eq (s : MainWindow) (batch : List QJsonValue) :
    gotUserTimeline s (QNetworkReply.NoError batch) =
      buildTable { s with storedTweets := pushedBack s, currentTweet := QJsonValue.Null }
        batch := by
  unfold gotUserTimeline pushedBack
  cases h : s.currentTweet.isNull
  · rfl
  · have e := (isNull_iff _).1 h
    cases s
    simp only at e
    subst e
    rfl

theorem mem_mergedWith_of_mem (stored batch : List QJsonValue) (p : QJsonValue)
    (hp : p ∈ stored) : p ∈ mergedWith stored batch := by
  unfold mergedWith
  split
  · exact (mem_mergeTweets _ _ p).2 (Or.inl hp)
  · exact hp

theorem mergedWith_sorted (stored batch : List QJsonValue) (hb : batch ≠ []) :
    (ids (mergedWith stored batch)).Sorted (· ≥ ·) := by
  unfold mergedWith
  cases batch with
  | nil => exact absurd rfl hb
  | cons a l => exact mergeTweets_sorted _ _

/-- C10 (as amended): a successful fetch that arrives while a post is on the card
(and the table has a column) puts that post back in front of incoming, merges the
batch, and then shows the head of the merged incoming list.  The post that was on the
card is not lost: it is on the card again or it is in incoming.  It is on the card
again when the batch is empty; with a non-empty batch the card shows a post whose
identity is at least that of every post left in incoming. -/
theorem fetch_shows_head_of_merged_incoming (s : MainWindow) (batch : List QJsonValue)
    (id : Int) (text : String) (hcur : s.currentTweet = QJsonValue.Object id text)
    (hcol : 0 < s.columnCount) :
    (gotUserTimeline s (QNetworkReply.NoError batch)).currentTweet =
        first (mergedIncoming s batch) ∧
      (gotUserTimeline s (QNetworkReply.NoError batch)).storedTweets =
        pop_front (mergedIncoming s batch) ∧
      (QJsonValue.Object id text =
          (gotUserTimeline s (QNetworkReply.NoError batch)).currentTweet ∨
        QJsonValue.Object id text ∈
          (gotUserTimeline s (QNetworkReply.NoError batch)).storedTweets) ∧
      (batch = [] →
        (gotUserTimeline s (QNetworkReply.NoError batch)).currentTweet =
          QJsonValue.Object id text) ∧
      (batch ≠ [] →
        ∀ p ∈ (gotUserTimeline s (QNetworkReply.NoError batch)).storedTweets,
          tweetId p ≤
            tweetId (gotUserTimeline s (QNetworkReply.NoError batch)).currentTweet) := by
  have hpush : pushedBack s = QJsonValue.Object id text :: s.storedTweets := by
    simp [pushedBack, hcur, QJsonValue.isNull, push_front, QJsonValue.stored]
  have hmem : QJsonValue.Object id text ∈ mergedIncoming s batch := by
    unfold mergedIncoming
    apply mem_mergedWith_of_mem
    rw [hpush]
    exact List.mem_cons_self _ _
  have hne : mergedIncoming s batch ≠ [] := List.ne_nil_of_mem hmem
  obtain ⟨h1, h2, _, _, _, _⟩ := buildTable_picks
    { s with storedTweets := pushedBack s, currentTweet := QJsonValue.Null } batch hne hcol
  rw [gotUserTimeline_eq, h1, h2]
  change first (mergedIncoming s batch) = first (mergedIncoming s batch) ∧
    pop_front (mergedIncoming s batch) = pop_front (mergedIncoming s batch) ∧
    (QJsonValue.Object id text = first (mergedIncoming s batch) ∨
      QJsonValue.Object id text ∈ pop_front (mergedIncoming s batch)) ∧
    (batch = [] → first (mergedIncoming s batch) = QJsonValue.Object id text) ∧
    (batch ≠ [] → ∀ p ∈ pop_front (mergedIncoming s batch),
      tweetId p ≤ tweetId (first (mergedIncoming s batch)))
  refine ⟨rfl, rfl, ?_, ?_, ?_⟩
  · cases hM : mergedIncoming s batch with
    | nil => exact absurd hM hne
    | cons a l =>
      rw [hM] at hmem
      simpa [first, pop_front] using hmem
  · intro hb
    subst hb
    simp [mergedIncoming, mergedWith, hpush, first]
  · intro hb p hp
    have hs : (ids (mergedIncoming s batch)).Sorted (· ≥ ·) := mergedWith_sorted _ _ hb
    cases hM : mergedIncoming s batch with
    | nil => exact absurd hM hne
    | cons a l =>
      rw [hM] at hs hp
      simp only [ids, List.map_cons, List.sorted_cons] at hs
      exact hs.1 (tweetId p) (List.mem_map_of_mem _ hp)

/-- Instance of C10 (S4): post 30 on the card, incoming 20, 10, and a fetch that
returns 40 and 30: post 40 is on the card, incoming is 30, 20, 10 and `mostRecentId`
is 40. -/
theorem fetch_shows_head_of_merged_incoming_witness :
    firstRun.currentTweet = QJsonValue.Object 30 "c" ∧
      ids firstRun.storedTweets = [20, 10] ∧
      (gotUserTimeline firstRun (QNetworkReply.NoError
        [QJsonValue.Object 40 "d", QJsonValue.Object 30 "c"])).currentTweet =
          QJsonValue.Object 40 "d" ∧
      ids (gotUserTimeline firstRun (QNetworkReply.NoError
        [QJsonValue.Object 40 "d", QJsonValue.Object 30 "c"])).storedTweets = [30, 20, 10] ∧
      (gotUserTimeline firstRun (QNetworkReply.NoError
        [QJsonValue.Object 40 "d", QJsonValue.Object 30 "c"])).mostRecentId = 40 ∧
      (QJsonValue.Object 30 "c" =
          (gotUserTimeline firstRun (QNetworkReply.NoError
            [QJsonValue.Object 40 "d", QJsonValue.Object 30 "c"])).currentTweet ∨
        QJsonValue.Object 30 "c" ∈
          (gotUserTimeline firstRun (QNetworkReply.NoError
            [QJsonValue.Object 40 "d", QJsonValue.Object 30 "c"])).storedTweets) :=
  ⟨by decide, by decide, by decide, by decide, by decide,
    (fetch_shows_head_of_merged_incoming firstRun
      [QJsonValue.Object 40 "d", QJsonValue.Object 30 "c"] 30 "c" (by decide)
      (by decide)).2.2.1⟩

/-- C10 (as stated) fails on S4: with post 30 on the card and incoming 20, 10, a fetch
that returns 40 and 30 leaves post 40 on the card and post 30 in incoming, which is
then 30, 20, 10. -/
theorem fetch_replaces_current_post :
    firstRun.currentTweet = QJsonValue.Object 30 "c" ∧
      (gotUserTimeline firstRun (QNetworkReply.NoError
        [QJsonValue.Object 40 "d", QJsonValue.Object 30 "c"])).currentTweet ≠
          QJsonValue.Object 30 "c" ∧
      QJsonValue.Object 30 "c" ∈
        (gotUserTimeline firstRun (QNetworkReply.NoError
          [QJsonValue.Object 40 "d", QJsonValue.Object 30 "c"])).storedTweets ∧
      ids (gotUserTimeline firstRun (QNetworkReply.NoError
        [QJsonValue.Object 40 "d", QJsonValue.Object 30 "c"])).storedTweets ≠ [40, 20, 10] := by
  decide

/-! ## The four sets stay disjoint -/

theorem queue_after_pop (M : List QJsonValue) (hM : M ≠ []) :
    ((if (first M).isNull then [] else [first M]) ++ pop_front M).Sublist M := by
  cases M with
  | nil => exact absurd rfl hM
  | cons h t =>
    simp only [first, pop_front]
    split
    · exact List.sublist_cons_self h t
    · exact List.Sublist.refl _

theorem ids_pushedBack (s : MainWindow) : ids (pushedBack s) = queueIds s := by
  unfold pushedBack queueIds currentPosts
  cases h : s.currentTweet with
  | Null => simp [QJsonValue.isNull]
  | Undefined => simp [QJsonValue.isNull, push_front, QJsonValue.stored, ids, tweetId]
  | Object i t => simp [QJsonValue.isNull, push_front, QJsonValue.stored, ids]

theorem pickNextTweet_consistent_of_pop (s : MainWindow) (hcol : 0 < s.columnCount)
    (hrow : 0 < rowCount s) (hlen : rowCount s ≤ s.storedTweets.length) :
    (currentPosts (pickNextTweet s) ++ (pickNextTweet s).storedTweets).Sublist
        s.storedTweets ∧
      rowCount (pickNextTweet s) ≤ (pickNextTweet s).storedTweets.length := by
  obtain ⟨h1, h2, _, _, h5, _⟩ := pickNextTweet_pops s hcol hrow
  have hne : s.storedTweets ≠ [] := by
    intro h
    rw [h] at hlen
    simp at hlen
    omega
  constructor
  · unfold currentPosts
    rw [h1, h2]
    exact queue_after_pop _ hne
  · unfold rowCount at hlen hrow ⊢
    rw [h2, h5]
    cases hs : s.storedTweets with
    | nil => exact absurd hs hne
    | cons a l =>
      rw [hs] at hlen
      simp only [pop_front, List.length_eraseIdx, List.length_cons] at hlen ⊢
      split <;> omega

theorem knownIds_nodup_of_sublist (q q' : List QJsonValue) (g b : List Int)
    (hsub : q'.Sublist q) (h : (ids q ++ g ++ b).Nodup) : (ids q' ++ g ++ b).Nodup := by
  refine List.Nodup.sublist ?_ h
  exact ((hsub.map tweetId).append (List.Sublist.refl g)).append (List.Sublist.refl b)

theorem pickNextTweet_consistent (s : MainWindow) (h : Consistent s) :
    Consistent (pickNextTweet s) := by
  obtain ⟨hnd, hso, hlen⟩ := h
  by_cases hg : 0 < s.columnCount ∧ 0 < rowCount s
  · obtain ⟨hsub, hrows⟩ := pickNextTweet_consistent_of_pop s hg.1 hg.2 hlen
    obtain ⟨_, _, h3, h4, _, _⟩ := pickNextTweet_pops s hg.1 hg.2
    have hsub' : (currentPosts (pickNextTweet s) ++ (pickNextTweet s).storedTweets).Sublist
        (currentPosts s ++ s.storedTweets) :=
      hsub.trans (List.sublist_append_right _ _)
    refine ⟨?_, ?_, hrows⟩
    · unfold knownIds queueIds at hnd ⊢
      rw [h3, h4]
      exact knownIds_nodup_of_sublist _ _ _ _ hsub' hnd
    · unfold queueIds at hso ⊢
      exact List.Pairwise.sublist (hsub'.map tweetId) hso
  · obtain ⟨h1, h2, h3, h4, h5, _⟩ := pickNextTweet_skips s hg
    unfold Consistent knownIds queueIds currentPosts rowCount at *
    rw [h1, h2, h3, h4, h5]
    exact ⟨hnd, hso, hlen⟩

theorem tweetId_stored (v : QJsonValue) : tweetId v.stored = tweetId v := by
  cases v <;> rfl

theorem like_fields (s : MainWindow) :
    (like s).currentTweet = s.currentTweet ∧
      (like s).storedTweets = s.storedTweets ∧
      (like s).goodTweets = s.currentTweet.stored :: s.goodTweets ∧
      (like s).badTweets = s.badTweets ∧
      (like s).tableRows = s.tableRows ∧
      (like s).columnCount = s.columnCount := by
  simp [like, stopMotion, push_front]

theorem dislike_fields (s : MainWindow) :
    (dislike s).currentTweet = s.currentTweet ∧
      (dislike s).storedTweets = s.storedTweets ∧
      (dislike s).goodTweets = s.goodTweets ∧
      (dislike s).badTweets = s.currentTweet.stored :: s.badTweets ∧
      (dislike s).tableRows = s.tableRows ∧
      (dislike s).columnCount = s.columnCount := by
  simp [dislike, stopMotion, push_front]

theorem currentPosts_of_not_null (s : MainWindow) (h : s.currentTweet.isNull = false) :
    currentPosts s = [s.currentTweet] := by
  simp [currentPosts, h]

theorem ids_cons_stored (v : QJsonValue) (l : List QJsonValue) :
    ids (v.stored :: l) = tweetId v :: ids l := by
  simp [ids, tweetId_stored]

theorem nodup_after_like (q a g b : List Int) (x : Int) (hsub : q.Sublist a)
    (h : (x :: a ++ g ++ b).Nodup) : (q ++ (x :: g) ++ b).Nodup := by
  rw [List.append_assoc, List.cons_append]
  refine (List.Perm.nodup_iff List.perm_middle).2 ?_
  rw [List.cons_append, List.cons_append, List.append_assoc] at h
  exact h.sublist ((hsub.append (List.Sublist.refl _)).cons₂ x)

theorem nodup_after_dislike (q a g b : List Int) (x : Int) (hsub : q.Sublist a)
    (h : (x :: a ++ g ++ b).Nodup) : (q ++ g ++ (x :: b)).Nodup := by
  refine (List.Perm.nodup_iff List.perm_middle).2 ?_
  rw [List.cons_append, List.cons_append] at h
  exact h.sublist (((hsub.append (List.Sublist.refl _)).append (List.Sublist.refl _)).cons₂ x)

theorem like_pick_consistent (s : MainWindow) (h : Consistent s)
    (hcur : s.currentTweet.isNull = false) (hcol : 0 < s.columnCount)
    (hrow : 0 < rowCount s) : Consistent (pickNextTweet (like s)) := by
  obtain ⟨hnd, hso, hlen⟩ := h
  obtain ⟨l1, l2, l3, l4, l5, l6⟩ := like_fields s
  have hcol' : 0 < (like s).columnCount := by rw [l6]; exact hcol
  have hrow' : 0 < rowCount (like s) := by unfold rowCount; rw [l5]; exact hrow
  have hlen' : rowCount (like s) ≤ (like s).storedTweets.length := by
    unfold rowCount; rw [l5, l2]; exact hlen
  obtain ⟨hsub, hrows⟩ := pickNextTweet_consistent_of_pop (like s) hcol' hrow' hlen'
  obtain ⟨_, _, h3, h4, _, _⟩ := pickNextTweet_pops (like s) hcol' hrow'
  rw [l2] at hsub
  refine ⟨?_, ?_, hrows⟩
  · unfold knownIds queueIds at hnd ⊢
    rw [h3, h4, l3, l4, ids_cons_stored]
    rw [currentPosts_of_not_null s hcur] at hnd
    exact nodup_after_like _ _ _ _ _ (hsub.map tweetId) hnd
  · unfold queueIds at hso ⊢
    exact List.Pairwise.sublist ((hsub.trans (List.sublist_append_right _ _)).map tweetId) hso

theorem dislike_pick_consistent (s : MainWindow) (h : Consistent s)
    (hcur : s.currentTweet.isNull = false) (hcol : 0 < s.columnCount)
    (hrow : 0 < rowCount s) : Consistent (pickNextTweet (dislike s)) := by
  obtain ⟨hnd, hso, hlen⟩ := h
  obtain ⟨l1, l2, l3, l4, l5, l6⟩ := dislike_fields s
  have hcol' : 0 < (dislike s).columnCount := by rw [l6]; exact hcol
  have hrow' : 0 < rowCount (dislike s) := by unfold rowCount; rw [l5]; exact hrow
  have hlen' : rowCount (dislike s) ≤ (dislike s).storedTweets.length := by
    unfold rowCount; rw [l5, l2]; exact hlen
  obtain ⟨hsub, hrows⟩ := pickNextTweet_consistent_of_pop (dislike s) hcol' hrow' hlen'
  obtain ⟨_, _, h3, h4, _, _⟩ := pickNextTweet_pops (dislike s) hcol' hrow'
  rw [l2] at hsub
  refine ⟨?_, ?_, hrows⟩
  · unfold knownIds queueIds at hnd ⊢
    rw [h3, h4, l3, l4, ids_cons_stored]
    rw [currentPosts_of_not_null s hcur] at hnd
    exact nodup_after_dislike _ _ _ _ _ (hsub.map tweetId) hnd
  · unfold queueIds at hso ⊢
    exact List.Pairwise.sublist ((hsub.trans (List.sublist_append_right _ _)).map tweetId) hso

theorem mergedWith_perm (stored batch : List QJsonValue)
    (hs : (ids stored).Sorted (· ≥ ·)) :
    (mergedWith stored batch).Perm
      (stored ++ batch.filter (fun p => decide (tweetId p ∉ ids stored))) := by
  unfold mergedWith
  cases batch with
  | nil => simp
  | cons a l =>
    rw [← filter_notFound_eq stored (a :: l) hs]
    exact mergeTweets_perm _ _

theorem mergedWith_sorted_of_sorted (stored batch : List QJsonValue)
    (hs : (ids stored).Sorted (· ≥ ·)) : (ids (mergedWith stored batch)).Sorted (· ≥ ·) := by
  cases batch with
  | nil => exact hs
  | cons a l => exact mergedWith_sorted stored (a :: l) (by simp)

theorem nodup_with_novel (p n g b : List Int) (h : (p ++ g ++ b).Nodup) (hn : n.Nodup)
    (hd : ∀ i ∈ n, i ∉ p ∧ i ∉ g ∧ i ∉ b) : (p ++ n ++ g ++ b).Nodup := by
  simp only [List.nodup_append, List.disjoint_left, List.mem_append] at h ⊢
  obtain ⟨⟨hp, hg, hpg⟩, hb, hpgb⟩ := h
  refine ⟨⟨⟨hp, hn, ?_⟩, hg, ?_⟩, hb, ?_⟩
  · intro a ha han
    exact (hd a han).1 ha
  · intro a ha hag
    rcases ha with ha | ha
    · exact hpg ha hag
    · exact (hd a ha).2.1 hag
  · intro a ha hab
    rcases ha with (ha | ha) | ha
    · exact hpgb (Or.inl ha) hab
    · exact (hd a ha).2.2 hab
    · exact hpgb (Or.inr ha) hab

theorem mergedIncoming_known_nodup (s : MainWindow) (batch : List QJsonValue)
    (h : Consistent s) (hb : (ids batch).Nodup)
    (hdis : ∀ i ∈ ids batch, i ∉ ids s.goodTweets ∧ i ∉ ids s.badTweets) :
    (ids (mergedIncoming s batch) ++ ids s.goodTweets ++ ids s.badTweets).Nodup := by
  obtain ⟨hnd, hso, _⟩ := h
  unfold knownIds at hnd
  rw [← ids_pushedBack] at hnd hso
  have hperm := (mergedWith_perm (pushedBack s) batch hso).map tweetId
  rw [List.map_append] at hperm
  have hsubl : (List.map tweetId
      (batch.filter (fun p => decide (tweetId p ∉ ids (pushedBack s))))).Sublist (ids batch) :=
    (List.filter_sublist batch).map tweetId
  have hnov := nodup_with_novel (ids (pushedBack s))
    (List.map tweetId (batch.filter (fun p => decide (tweetId p ∉ ids (pushedBack s)))))
    (ids s.goodTweets) (ids s.badTweets) hnd (hb.sublist hsubl) (by
      intro i hi
      refine ⟨?_, hdis i (hsubl.subset hi)⟩
      obtain ⟨p, hp, rfl⟩ := List.mem_map.1 hi
      simpa using (List.mem_filter.1 hp).2)
  refine (List.Perm.nodup_iff ?_).2 hnov
  exact (hperm.append_right _).append_right _

theorem fetch_consistent (s : MainWindow) (batch : List QJsonValue) (h : Consistent s)
    (hb : (ids batch).Nodup)
    (hdis : ∀ i ∈ ids batch, i ∉ ids s.goodTweets ∧ i ∉ ids s.badTweets) :
    Consistent (gotUserTimeline s (QNetworkReply.NoError batch)) := by
  have hknown := mergedIncoming_known_nodup s batch h hb hdis
  obtain ⟨_, hso, hlen⟩ := h
  rw [← ids_pushedBack] at hso
  have hsorted : (ids (mergedIncoming s batch)).Sorted (· ≥ ·) :=
    mergedWith_sorted_of_sorted _ _ hso
  rw [gotUserTimeline_eq]
  by_cases hpick : mergedIncoming s batch ≠ [] ∧ 0 < s.columnCount
  · obtain ⟨h1, h2, h3, h4, h5, _⟩ := buildTable_picks
      { s with storedTweets := pushedBack s, currentTweet := QJsonValue.Null } batch
      hpick.1 hpick.2
    have hsub := queue_after_pop (mergedIncoming s batch) hpick.1
    unfold Consistent knownIds queueIds currentPosts rowCount
    rw [h1, h2, h3, h4, h5]
    refine ⟨knownIds_nodup_of_sublist _ _ _ _ hsub hknown,
      List.Pairwise.sublist (hsub.map tweetId) hsorted, ?_⟩
    change ((ids (mergedIncoming s batch)).eraseIdx 0).length ≤
      (pop_front (mergedIncoming s batch)).length
    cases hM : mergedIncoming s batch with
    | nil => exact absurd hM hpick.1
    | cons a l => simp [ids, pop_front]
  · have hno : mergedIncoming s batch = [] ∨ s.columnCount = 0 := by
      by_cases hM : mergedIncoming s batch = []
      · exact Or.inl hM
      · right
        have : ¬ 0 < s.columnCount := fun hc => hpick ⟨hM, hc⟩
        omega
    obtain ⟨h1, h2, h3, h4, h5⟩ := buildTable_no_pick
      { s with storedTweets := pushedBack s, currentTweet := QJsonValue.Null } batch hno
    unfold Consistent knownIds queueIds currentPosts rowCount
    rw [h1, h2, h3, h4]
    refine ⟨by simpa [QJsonValue.isNull] using hknown,
      by simpa [QJsonValue.isNull] using hsorted, ?_⟩
    rcases h5 with ⟨h5, hM⟩ | h5
    · rw [h5]
      change s.tableRows.length ≤ (mergedIncoming s batch).length
      have hp := (mergedWith_perm (pushedBack s) batch hso).length_eq
      have hle : s.storedTweets.length ≤ (pushedBack s).length := by
        unfold pushedBack push_front
        split <;> simp
      unfold rowCount at hlen
      change (mergedIncoming s batch).length = _ at hp
      rw [hp, List.length_append]
      omega
    · rw [h5]
      change (ids (mergedIncoming s batch)).length ≤ (mergedIncoming s batch).length
      simp [ids]

theorem quiescent_consistent (s0 s : MainWindow) (h0 : Consistent s0)
    (h : Quiescent s0 s) : Consistent s := by
  induction h with
  | start => exact h0
  | fetched s batch _ hb hdis ih => exact fetch_consistent s batch ih hb hdis
  | fetchFailed s _ ih => exact ih
  | liked s _ hcur hcol hrow ih => exact like_pick_consistent s ih hcur hcol hrow
  | disliked s _ hcur hcol hrow ih => exact dislike_pick_consistent s ih hcur hcol hrow
  | picked s _ ih => exact pickNextTweet_consistent s ih

/-- C1 (as amended): start from a state in which no identity occurs twice among the
card, incoming, liked and disliked, the card followed by incoming is sorted by identity
descending, and the table shows no more rows than incoming has posts.  Then at every
quiescent point reached by fetches (failed, or successful with a batch that repeats no
identity and holds no identity that is liked or disliked), by `like` or `dislike` of
the post on the card followed by `pickNextTweet` while the table shows a row, and by
`pickNextTweet` alone, no identity occurs twice among the four sets. -/
theorem four_sets_stay_disjoint (s0 s : MainWindow) (h0 : Consistent s0)
    (h : Quiescent s0 s) :
    (ids (currentPosts s ++ s.storedTweets) ++ ids s.goodTweets ++ ids s.badTweets).Nodup :=
  (quiescent_consistent s0 s h0 h).1

/-- Instance of C1 (as amended): the first run followed by a `like` of post 30. -/
theorem four_sets_stay_disjoint_witness :
    Consistent (buildTable startup []) ∧
      ids (currentPosts (pickNextTweet (like firstRun)) ++
          (pickNextTweet (like firstRun)).storedTweets) = [20, 10] ∧
      ids (pickNextTweet (like firstRun)).goodTweets = [30] ∧
      (ids (currentPosts (pickNextTweet (like firstRun)) ++
          (pickNextTweet (like firstRun)).storedTweets) ++
        ids (pickNextTweet (like firstRun)).goodTweets ++
        ids (pickNextTweet (like firstRun)).badTweets).Nodup :=
  ⟨⟨by decide, by decide, by decide⟩, by decide, by decide,
    four_sets_stay_disjoint (buildTable startup []) (pickNextTweet (like firstRun))
      ⟨by decide, by decide, by decide⟩
      (Quiescent.liked firstRun
        (Quiescent.fetched (buildTable startup [])
          [QJsonValue.Object 30 "c", QJsonValue.Object 20 "b", QJsonValue.Object 10 "a"]
          Quiescent.start (by decide) (by decide))
        (by decide) (by decide) (by decide))⟩

/-- C1 (as stated) fails, in four ways.  (a) A fetch that returns a post already liked
puts it on the card again: 30 is liked and current.  (b) A batch that repeats an
identity leaves it on the card and in incoming.  (c) After the last post is liked, the
`pickNextTweet` that follows finds no row and leaves the post on the card: 30 is liked
and current.  (d) From an unsorted incoming list 10, 30 a fetch of post 10 misses it
in the binary search and incoming holds 10 twice. -/
theorem four_sets_overlap :
    (tweetId (gotUserTimeline (pickNextTweet (like firstRun))
          (QNetworkReply.NoError [QJsonValue.Object 30 "c"])).currentTweet = 30 ∧
        ids (gotUserTimeline (pickNextTweet (like firstRun))
          (QNetworkReply.NoError [QJsonValue.Object 30 "c"])).goodTweets = [30]) ∧
      (tweetId (gotUserTimeline (buildTable startup [])
          (QNetworkReply.NoError
            [QJsonValue.Object 30 "c", QJsonValue.Object 30 "c"])).currentTweet = 30 ∧
        ids (gotUserTimeline (buildTable startup [])
          (QNetworkReply.NoError
            [QJsonValue.Object 30 "c", QJsonValue.Object 30 "c"])).storedTweets = [30]) ∧
      (tweetId (pickNextTweet (like (gotUserTimeline (buildTable startup [])
          (QNetworkReply.NoError [QJsonValue.Object 30 "c"])))).currentTweet = 30 ∧
        ids (pickNextTweet (like (gotUserTimeline (buildTable startup [])
          (QNetworkReply.NoError [QJsonValue.Object 30 "c"])))).goodTweets = [30]) ∧
      ((ids ({ startup with
            storedTweets := [QJsonValue.Object 10 "a", QJsonValue.Object 30 "c"] } :
            MainWindow).storedTweets).Nodup ∧
        ids (gotUserTimeline
          { startup with storedTweets := [QJsonValue.Object 10 "a", QJsonValue.Object 30 "c"] }
          (QNetworkReply.NoError [QJsonValue.Object 10 "a"])).storedTweets = [10, 10]) := by
  decide

/-! ## Row deletion -/

theorem length_foldl_eraseIdx (selectedRows : List Nat) : ∀ rows : List Int,
    (selectedRows.foldl (fun rows row => rows.eraseIdx row) rows).length ≤ rows.length := by
  induction selectedRows with
  | nil => intro rows; exact le_refl _
  | cons r rest ih =>
    intro rows
    simp only [List.foldl_cons]
    refine le_trans (ih _) ?_
    rw [List.length_eraseIdx]
    split <;> omega

theorem onDeleteTweet_fields (s : MainWindow) (selectedRows : List Nat) :
    (onDeleteTweet s selectedRows).storedTweets = s.storedTweets ∧
      (onDeleteTweet s selectedRows).goodTweets = s.goodTweets ∧
      (onDeleteTweet s selectedRows).badTweets = s.badTweets ∧
      (onDeleteTweet s selectedRows).currentTweet = s.currentTweet ∧
      (onDeleteTweet s selectedRows).columnCount = s.columnCount ∧
      rowCount (onDeleteTweet s selectedRows) ≤ rowCount s :=
  ⟨rfl, rfl, rfl, rfl, rfl, length_foldl_eraseIdx selectedRows s.tableRows⟩

/-- C11 fails on the code: `onDeleteTweet` removes the selected rows from the table and
leaves `storedTweets` as it is.  After the first run the table shows posts 20 and 10;
deleting the row of post 20 leaves post 20 in incoming, and the next `pickNextTweet`
puts the deleted post on the card.  Liked, disliked and the card are unchanged by the
deletion, as the claim says. -/
theorem onDeleteTweet_keeps_post_in_incoming :
    (firstRun.tableRows = [20, 10] ∧ ids firstRun.storedTweets = [20, 10]) ∧
      (rowDeleted.tableRows = [10] ∧
        rowDeleted.storedTweets = firstRun.storedTweets ∧
        QJsonValue.Object 20 "b" ∈ rowDeleted.storedTweets) ∧
      (rowDeleted.goodTweets = firstRun.goodTweets ∧
        rowDeleted.badTweets = firstRun.badTweets ∧
        rowDeleted.currentTweet = firstRun.currentTweet) ∧
      ((pickNextTweet (like rowDeleted)).currentTweet = QJsonValue.Object 20 "b" ∧
        (pickNextTweet (like rowDeleted)).tableRows = [] ∧
        ids (pickNextTweet (like rowDeleted)).storedTweets = [10]) := by
  decide

/-! ## Relevant words -/

theorem key_le_of_sorted {α κ : Type} [LinearOrder κ] (key : α → κ) (xs : List α)
    (hs : (xs.map key).Sorted (· ≤ ·)) (i j : Nat) (x y : α) (hij : i ≤ j)
    (hx : xs[i]? = some x) (hy : xs[j]? = some y) : key x ≤ key y := by
  rcases Nat.eq_or_lt_of_le hij with h | h
  · subst h
    rw [hx] at hy
    cases hy
    exact le_refl _
  · obtain ⟨hi, rfl⟩ := List.getElem?_eq_some.1 hx
    obtain ⟨hj, rfl⟩ := List.getElem?_eq_some.1 hy
    have hp := (List.pairwise_iff_getElem.1 hs) i j (by simpa using hi) (by simpa using hj) h
    simpa using hp

/-- On an array sorted by a key, with a comparator that compares keys, the binary
search misses a value exactly when no item has its key. -/
theorem qBinaryFind_none_iff_of_key {α κ : Type} [LinearOrder κ] (key : α → κ)
    (lessThan : α → α → Bool) (hlt : ∀ a b, lessThan a b = true ↔ key a < key b)
    (xs : List α) (v : α) (hs : (xs.map key).Sorted (· ≤ ·)) :
    qBinaryFind lessThan xs v = none ↔ key v ∉ xs.map key := by
  have hfalse : ∀ a b, lessThan a b = false ↔ key b ≤ key a := by
    intro a b
    rw [← not_lt, ← hlt, Bool.not_eq_true]
  constructor
  · intro hnone hmem
    obtain ⟨y, hy, hyv⟩ := List.mem_map.1 hmem
    obtain ⟨j, hj⟩ := List.getElem?_of_mem hy
    have hjlen : j < xs.length := (List.getElem?_eq_some.1 hj).1
    have hmono : ∀ (a b : Nat) (x z : α), a ≤ b → xs[a]? = some x →
        xs[b]? = some z → lessThan z v = true → lessThan x v = true := by
      intro a b x z hab hx hz hzv
      have hle := key_le_of_sorted key xs hs a b x z hab hx hz
      rw [hlt] at hzv ⊢
      exact lt_of_le_of_lt hle hzv
    have hpre := qLowerBoundLoop_before lessThan xs v hmono xs.length 0 xs.length
      (le_refl _) (by omega)
    have hb := qLowerBoundLoop_bounds lessThan xs v xs.length 0 xs.length (le_refl _)
      (by omega)
    simp only [Nat.zero_add] at hb
    have hrj : qLowerBound lessThan xs v ≤ j := by
      by_contra hcon
      have := hpre j y (Nat.zero_le _) (by unfold qLowerBound at hcon; omega) hj
      rw [hlt, hyv] at this
      exact lt_irrefl _ this
    obtain ⟨x, hx, hxv⟩ := hb.2.2 (by unfold qLowerBound at hrj; omega)
    change xs[qLowerBound lessThan xs v]? = some x at hx
    have hle := key_le_of_sorted key xs hs _ j x y hrj hx hj
    rw [hfalse] at hxv
    have hvx : lessThan v x = false := by
      rw [hfalse, ← hyv]
      exact hle
    rw [qBinaryFind_of_some lessThan xs v x hx] at hnone
    simp [hvx] at hnone
  · intro hnot
    cases hf : qBinaryFind lessThan xs v with
    | none => rfl
    | some i =>
      exfalso
      obtain ⟨x, hx, h1, h2⟩ := qBinaryFind_sound lessThan xs v i hf
      rw [hfalse] at h1 h2
      apply hnot
      rw [← le_antisymm h2 h1]
      exact List.mem_map_of_mem _ hx

theorem wordComparator_iff (a b : String) :
    wordComparator a b = true ↔ caseFold a < caseFold b := by
  simp [wordComparator]

theorem qSort_words_perm (l : List String) : (qSort wordComparator l).Perm l :=
  qSort_perm_of_key caseFold wordComparator wordComparator_iff l

theorem qSort_words_sorted (l : List String) :
    ((qSort wordComparator l).map caseFold).Sorted (· ≤ ·) :=
  qSort_sorted_of_key caseFold wordComparator wordComparator_iff l

theorem wordSelected_of_found (s : MainWindow) (text : String) (i : Nat)
    (h : qBinaryFind wordComparator s.relevantWords (trimmed (reWordCap text)) = some i) :
    wordSelected s (some text) = s := by
  simp only [wordSelected, h]

theorem wordSelected_of_missed (s : MainWindow) (text : String)
    (h : qBinaryFind wordComparator s.relevantWords (trimmed (reWordCap text)) = none) :
    wordSelected s (some text) =
      { s with
        relevantWords :=
          qSort wordComparator (s.relevantWords ++ [trimmed (reWordCap text)]) } := by
  simp only [wordSelected, h]

/-- C13: on a list of relevant words sorted case-insensitively ascending,
`wordSelected` leaves the list as it is when the normalised token already occurs in it
ignoring case; selecting the same token twice gives the same state as selecting it
once; the list stays sorted, and a list without two words equal ignoring case stays
so. -/
theorem wordSelected_idempotent (s : MainWindow) (text : String)
    (hs : (s.relevantWords.map caseFold).Sorted (· ≤ ·)) :
    (caseFold (trimmed (reWordCap text)) ∈ s.relevantWords.map caseFold →
        (wordSelected s (some text)).relevantWords = s.relevantWords) ∧
      wordSelected (wordSelected s (some text)) (some text) = wordSelected s (some text) ∧
      ((wordSelected s (some text)).relevantWords.map caseFold).Sorted (· ≤ ·) ∧
      ((s.relevantWords.map caseFold).Nodup →
        ((wordSelected s (some text)).relevantWords.map caseFold).Nodup) := by
  have hiff := qBinaryFind_none_iff_of_key caseFold wordComparator wordComparator_iff
    s.relevantWords (trimmed (reWordCap text)) hs
  cases hf : qBinaryFind wordComparator s.relevantWords (trimmed (reWordCap text)) with
  | some i =>
    have e := wordSelected_of_found s text i hf
    rw [e]
    exact ⟨fun _ => rfl, e, hs, fun h => h⟩
  | none =>
    have e := wordSelected_of_missed s text hf
    have hnot := hiff.1 hf
    have hsorted := qSort_words_sorted (s.relevantWords ++ [trimmed (reWordCap text)])
    have hperm := qSort_words_perm (s.relevantWords ++ [trimmed (reWordCap text)])
    refine ⟨fun hmem => absurd hmem hnot, ?_, ?_, ?_⟩
    · rw [e]
      have hmem : caseFold (trimmed (reWordCap text)) ∈
          (qSort wordComparator (s.relevantWords ++ [trimmed (reWordCap text)])).map
            caseFold :=
        List.mem_map_of_mem _ (hperm.mem_iff.2 (by simp))
      have hsome : qBinaryFind wordComparator
          (qSort wordComparator (s.relevantWords ++ [trimmed (reWordCap text)]))
          (trimmed (reWordCap text)) ≠ none := fun hn =>
        (qBinaryFind_none_iff_of_key caseFold wordComparator wordComparator_iff _ _
          hsorted).1 hn hmem
      cases hq : qBinaryFind wordComparator
          (qSort wordComparator (s.relevantWords ++ [trimmed (reWordCap text)]))
          (trimmed (reWordCap text)) with
      | none => exact absurd hq hsome
      | some j => exact wordSelected_of_found _ text j hq
    · rw [e]
      exact hsorted
    · intro hnd
      rw [e]
      refine ((hperm.map caseFold).nodup_iff).2 ?_
      rw [List.map_append, List.map_singleton]
      refine List.Nodup.append hnd (List.nodup_singleton _) ?_
      intro a ha ha'
      rw [List.mem_singleton] at ha'
      subst ha'
      exact hnot ha

/-- Instance of C13 (S5): from an empty list, a click on `#rust` gives the list with
`#rust` alone, and a second click leaves it so; with `#Rust` in the list, a click on
the chip `#rust,` changes nothing. -/
theorem wordSelected_idempotent_witness :
    (startup.relevantWords.map caseFold).Sorted (· ≤ ·) ∧
      (wordSelected startup (some "#rust")).relevantWords = ["#rust"] ∧
      (wordSelected (wordSelected startup (some "#rust")) (some "#rust")).relevantWords =
        ["#rust"] ∧
      wordSelected (wordSelected startup (some "#rust")) (some "#rust") =
        wordSelected startup (some "#rust") ∧
      (wordSelected { startup with relevantWords := ["#Rust", "qt"] }
        (some "#rust,")).relevantWords = ["#Rust", "qt"] :=
  ⟨by decide, by decide, by decide,
    (wordSelected_idempotent startup "#rust" (by decide)).2.1, by decide⟩

/-! ## The table never shows more rows than incoming has posts -/

theorem pickNextTweet_rows_le (s : MainWindow) (h : rowCount s ≤ s.storedTweets.length) :
    rowCount (pickNextTweet s) ≤ (pickNextTweet s).storedTweets.length := by
  by_cases hg : 0 < s.columnCount ∧ 0 < rowCount s
  · exact (pickNextTweet_consistent_of_pop s hg.1 hg.2 h).2
  · obtain ⟨_, h2, _, _, h5, _⟩ := pickNextTweet_skips s hg
    unfold rowCount at h ⊢
    rw [h2, h5]
    exact h

theorem length_le_mergedWith (stored batch : List QJsonValue) :
    stored.length ≤ (mergedWith stored batch).length := by
  unfold mergedWith
  split
  · rw [(mergeTweets_perm stored batch).length_eq, List.length_append]
    omega
  · exact le_refl _

theorem buildTable_rows_le (s : MainWindow) (batch : List QJsonValue)
    (h : rowCount s ≤ s.storedTweets.length) :
    rowCount (buildTable s batch) ≤ (buildTable s batch).storedTweets.length := by
  rw [buildTable_eq]
  split
  · change s.tableRows.length ≤ (mergedWith s.storedTweets batch).length
    exact le_trans h (length_le_mergedWith _ _)
  · apply pickNextTweet_rows_le
    change (ids (mergedWith s.storedTweets batch)).length ≤
      (mergedWith s.storedTweets batch).length
    simp [ids]

theorem gotUserTimeline_rows_le (s : MainWindow) (reply : QNetworkReply)
    (h : rowCount s ≤ s.storedTweets.length) :
    rowCount (gotUserTimeline s reply) ≤ (gotUserTimeline s reply).storedTweets.length := by
  cases reply with
  | Error => exact h
  | NoError batch =>
    rw [gotUserTimeline_eq]
    apply buildTable_rows_le
    change s.tableRows.length ≤ (pushedBack s).length
    unfold rowCount at h
    unfold pushedBack push_front
    split
    · simp only [List.length_cons]
      omega
    · exact h

theorem scrollBy_table (s : MainWindow) (offset : QPoint) :
    (scrollBy s offset).tableRows = s.tableRows ∧
      (scrollBy s offset).storedTweets = s.storedTweets := by
  simp only [scrollBy]
  split_ifs <;> simp [like, dislike, stopMotion, scrollByMove]

theorem eventFilter_table (s : MainWindow) (event : QEvent) :
    (eventFilter s event).tableRows = s.tableRows ∧
      (eventFilter s event).storedTweets = s.storedTweets := by
  cases event with
  | MouseButtonPress onTweetFrame leftButton globalPos =>
    simp only [eventFilter]
    split <;> exact ⟨rfl, rfl⟩
  | MouseMove onTweetFrame globalPos elapsed =>
    simp only [eventFilter]
    obtain ⟨h1, h2⟩ := scrollBy_table s ⟨globalPos.x - s.lastMousePos.x, 0⟩
    split_ifs <;> first | exact ⟨rfl, rfl⟩ | exact ⟨h1, h2⟩
  | MouseButtonRelease onTweetFrame leftButton globalPos elapsed elapsed2 =>
    simp only [eventFilter]
    split
    · split
      · split_ifs <;> exact ⟨rfl, rfl⟩
      · exact ⟨rfl, rfl⟩
    · exact ⟨rfl, rfl⟩
  | Other => exact ⟨rfl, rfl⟩

theorem timerEvent_table (s : MainWindow) (timerId : Nat) :
    (timerEvent s timerId).tableRows = s.tableRows ∧
      (timerEvent s timerId).storedTweets = s.storedTweets := by
  simp only [timerEvent]
  obtain ⟨h1, h2⟩ := scrollBy_table s s.velocity.toPoint
  split_ifs <;> first | exact ⟨rfl, rfl⟩ | exact ⟨h1, h2⟩

theorem wordSelected_table (s : MainWindow) (sender : Option String) :
    (wordSelected s sender).tableRows = s.tableRows ∧
      (wordSelected s sender).storedTweets = s.storedTweets := by
  cases sender with
  | none => exact ⟨rfl, rfl⟩
  | some text =>
    simp only [wordSelected]
    split <;> exact ⟨rfl, rfl⟩

theorem rows_le_of_table_eq (s t : MainWindow)
    (ht : t.tableRows = s.tableRows ∧ t.storedTweets = s.storedTweets)
    (h : rowCount s ≤ s.storedTweets.length) : rowCount t ≤ t.storedTweets.length := by
  unfold rowCount at h ⊢
  rw [ht.1, ht.2]
  exact h

theorem reachable_rows_le (s0 s : MainWindow) (h0 : rowCount s0 = 0)
    (h : Reachable s0 s) : rowCount s ≤ s.storedTweets.length := by
  induction h with
  | start => omega
  | built s batch _ ih => exact buildTable_rows_le s batch ih
  | replied s reply _ ih => exact gotUserTimeline_rows_le s reply ih
  | deleted s selectedRows _ ih =>
    obtain ⟨h1, _, _, _, _, h6⟩ := onDeleteTweet_fields s selectedRows
    rw [h1]
    exact le_trans h6 ih
  | liked s _ ih =>
    obtain ⟨_, l2, _, _, l5, _⟩ := like_fields s
    exact rows_le_of_table_eq s _ ⟨l5, l2⟩ ih
  | disliked s _ ih =>
    obtain ⟨_, l2, _, _, l5, _⟩ := dislike_fields s
    exact rows_le_of_table_eq s _ ⟨l5, l2⟩ ih
  | picked s _ ih => exact pickNextTweet_rows_le s ih
  | pointer s event _ ih => exact rows_le_of_table_eq s _ (eventFilter_table s event) ih
  | tick s timerId _ ih => exact rows_le_of_table_eq s _ (timerEvent_table s timerId) ih
  | word s sender _ ih => exact rows_le_of_table_eq s _ (wordSelected_table s sender) ih

/-- C14: in every state reached from a start-up state (table without rows) by
`buildTable`, replies to a request (failed or successful), row deletions, `like`,
`dislike`, `pickNextTweet`, pointer events, timer ticks and word clicks, the table
has at most as many rows as `storedTweets` has posts.  So whenever the guard of
`pickNextTweet` passes, `storedTweets` is non-empty and `pickNextTweet` puts its head
on the card. -/
theorem pickNextTweet_front_exists (s0 s : MainWindow) (h0 : rowCount s0 = 0)
    (h : Reachable s0 s) :
    rowCount s ≤ s.storedTweets.length ∧
      (0 < s.columnCount ∧ 0 < rowCount s →
        ∃ head rest, s.storedTweets = head :: rest ∧
          (pickNextTweet s).currentTweet = head ∧
          (pickNextTweet s).storedTweets = rest) := by
  have hle := reachable_rows_le s0 s h0 h
  refine ⟨hle, fun hg => ?_⟩
  obtain ⟨h1, h2, _, _, _, _⟩ := pickNextTweet_pops s hg.1 hg.2
  cases hs : s.storedTweets with
  | nil =>
    rw [hs] at hle
    simp at hle
    omega
  | cons head rest =>
    rw [hs] at h1 h2
    exact ⟨head, rest, rfl, h1, h2⟩

/-- Instance of C14: the first run followed by the deletion of a row; the table then
has one row, incoming two posts, and `pickNextTweet` finds post 20 in front. -/
theorem pickNextTweet_front_exists_witness :
    rowCount startup = 0 ∧
      rowCount rowDeleted = 1 ∧
      rowDeleted.storedTweets.length = 2 ∧
      (rowCount rowDeleted ≤ rowDeleted.storedTweets.length ∧
        (0 < rowDeleted.columnCount ∧ 0 < rowCount rowDeleted →
          ∃ head rest, rowDeleted.storedTweets = head :: rest ∧
            (pickNextTweet rowDeleted).currentTweet = head ∧
            (pickNextTweet rowDeleted).storedTweets = rest)) :=
  ⟨by decide, by decide, by decide,
    pickNextTweet_front_exists startup rowDeleted (by decide)
      (Reachable.deleted firstRun [0]
        (Reachable.replied (buildTable startup [])
          (QNetworkReply.NoError
            [QJsonValue.Object 30 "c", QJsonValue.Object 20 "b", QJsonValue.Object 10 "a"])
          (Reachable.built startup [] Reachable.start)))⟩

end Twindicator
